import Mathlib

/-!
# rag-agent: document storage and chunk indexing

A shallow embedding of `internal/storage` (chunk identifiers, the blob store,
the document catalog, the storage orchestrator and the vector index client)
together with theorems about it.

Conventions
* Go `string`s are lists of runes (`List Char`) inside the scanner and
  `String` at the API surface.
* Go `int` is `Int`; the 64-bit range is the predicate `IsGoInt`.
* Go maps are finite partial functions `String → Option V`; a `range` loop
  that copies one map into another is iteration-order independent, so it is
  the right-biased merge of the two functions.
-/

namespace RagAgent

/-! ## Integers and decimal formatting (`%d`, `strconv.Itoa`) -/

/-- Range of the Go type `int` on 64-bit targets. -/
def IsGoInt (x : Int) : Prop := -(2 : Int) ^ 63 ≤ x ∧ x < (2 : Int) ^ 63

instance (x : Int) : Decidable (IsGoInt x) := by
  unfold IsGoInt; infer_instance

/-- The ASCII digit for `d` (`byte('0' + d)`). -/
def digitChar (d : Nat) : Char := Char.ofNat (48 + d)

/-- Digit loop of `fmtInteger` / `formatBits`: least significant digit is
produced last in the list. The first argument bounds the number of
iterations; `fmtUint` supplies enough. -/
def fmtUintAux : Nat → Nat → List Char
  | 0, _ => []
  | fuel + 1, u =>
    if u < 10 then [digitChar u]
    else fmtUintAux fuel (u / 10) ++ [digitChar (u % 10)]

/-- Unpadded base-10 rendering of a natural number. -/
def fmtUint (u : Nat) : List Char := fmtUintAux (u + 1) u

/-- Rendering of `%d` (and of `strconv.Itoa`): a minus sign for negative
values followed by the digits of the magnitude. -/
def fmtInt (x : Int) : List Char :=
  if x < 0 then '-' :: fmtUint x.natAbs else fmtUint x.natAbs

/-- Go `strconv.Itoa`. -/
def Itoa (x : Int) : String := String.mk (fmtInt x)

/-- Go `fmt.Sprintf("doc_%d_chunk_%d", documentID, chunkIndex)`, as runes. -/
def sprintfDocChunk (documentID chunkIndex : Int) : List Char :=
  "doc_".toList ++ fmtInt documentID ++ "_chunk_".toList ++ fmtInt chunkIndex

/-- Source `GenerateChunkID` (vector_service.go). -/
def GenerateChunkID (documentID chunkIndex : Int) : String :=
  String.mk (sprintfDocChunk documentID chunkIndex)

/-! ## Scanning (`fmt.Sscanf`, `strconv.ParseInt`, `strconv.Atoi`) -/

/-- Errors raised by the scanner and by number conversion. -/
inductive ScanError where
  | eof
  | unexpectedEOF
  | unexpectedNewline
  | inputMismatch
  | expectedInteger
  | syntaxErr
  | rangeErr
  deriving DecidableEq, Repr

/-- Character class of `fmt`'s `isSpace` table. -/
def isSpace (r : Char) : Bool :=
  let n := r.toNat
  (0x0009 ≤ n && n ≤ 0x000d) || n == 0x0020 || n == 0x0085 || n == 0x00a0 ||
  n == 0x1680 || (0x2000 ≤ n && n ≤ 0x200a) || (0x2028 ≤ n && n ≤ 0x2029) ||
  n == 0x202f || n == 0x205f || n == 0x3000

/-- Membership in `decimalDigits`. -/
def isDecDigit (r : Char) : Bool := 48 ≤ r.toNat && r.toNat ≤ 57

/-- Membership in `sign` (`"+-"`). -/
def isSign (r : Char) : Bool := r == '+' || r == '-'

/-- The scanner method `SkipSpace` with `nlIsSpace = false` (the `Sscanf`
setting): blanks are consumed, a newline is an error, a carriage return
directly before a newline is consumed without further test. -/
def skipSpace : List Char → Except ScanError (List Char)
  | [] => .ok []
  | r :: rest =>
    if r = '\r' ∧ rest.head? = some '\n' then skipSpace rest
    else if r = '\n' then .error .unexpectedNewline
    else if !isSpace r then .ok (r :: rest)
    else skipSpace rest

/-- The scanner method `advance` on a format fragment made of literal
characters only (no blanks, no percent sign): every format rune must be
matched by the next input rune. -/
def advanceLit : List Char → List Char → Except ScanError (List Char)
  | [], inp => .ok inp
  | _ :: _, [] => .error .unexpectedEOF
  | f :: fs, c :: cs => if f = c then advanceLit fs cs else .error .inputMismatch

/-- Value of an ASCII digit. -/
def digitVal (c : Char) : Nat := c.toNat - 48

/-- Accumulation loop of `strconv.ParseUint(s, 10, 64)`: a non-digit is a
syntax error, exceeding 64 bits is a range error. -/
def parseUintLoop : Nat → List Char → Except ScanError Nat
  | n, [] => .ok n
  | n, c :: cs =>
    if !isDecDigit c then .error .syntaxErr
    else if n ≥ (2 ^ 64 - 1) / 10 + 1 then .error .rangeErr
    else
      let n1 := n * 10 + digitVal c
      if n1 > 2 ^ 64 - 1 then .error .rangeErr
      else parseUintLoop n1 cs

/-- Go `strconv.ParseUint(s, 10, 64)`. -/
def ParseUint (s : List Char) : Except ScanError Nat :=
  if s = [] then .error .syntaxErr else parseUintLoop 0 s

/-- Go `strconv.ParseInt(s, 10, 0)` with 64-bit `int`: optional sign, then
`ParseUint`, then the signed range check. -/
def ParseInt (s : List Char) : Except ScanError Int :=
  match s with
  | [] => .error .syntaxErr
  | c :: cs =>
    let neg := c = '-'
    let body := if c = '+' ∨ c = '-' then cs else c :: cs
    match ParseUint body with
    | .error e => .error e
    | .ok un =>
      if ¬ neg ∧ un ≥ 2 ^ 63 then .error .rangeErr
      else if neg ∧ un > 2 ^ 63 then .error .rangeErr
      else .ok (if neg then -(un : Int) else (un : Int))

/-- The scanner method `scanNumber` for decimal digits: `buf` is the token
buffer so far (the sign, if one was accepted); input must be present and
start with a digit; the longest run of digits is appended to the buffer. -/
def scanNumber (buf : List Char) (inp : List Char) :
    Except ScanError (List Char × List Char) :=
  match inp with
  | [] => .error .eof
  | d :: ds =>
    if !isDecDigit d then .error .expectedInteger
    else .ok (buf ++ (d :: ds).takeWhile isDecDigit, (d :: ds).dropWhile isDecDigit)

/-- The scanner method `scanInt` for verb `d` and a 64-bit destination:
skip blanks, require input, accept one sign, scan the digits, convert the
token with `ParseInt`. -/
def scanInt (inp : List Char) : Except ScanError (Int × List Char) :=
  match skipSpace inp with
  | .error e => .error e
  | .ok [] => .error .eof
  | .ok (c :: cs) =>
    match scanNumber (if isSign c then [c] else []) (if isSign c then cs else c :: cs) with
    | .error e => .error e
    | .ok (tok, rest) =>
      match ParseInt tok with
      | .error e => .error e
      | .ok v => .ok (v, rest)

/-- Go `fmt.Sscanf(input, "doc_%d_chunk_%d", &docID, &chunkIdx)`: the
format loop of `doScanf` unrolled for this format. Input left over after
the second integer is not inspected. The input is the sequence of runes
the scanner decodes (an invalid byte reads as U+FFFD). The scanner's read
limit of `2^30` runes is not modelled; it can only turn an accepted input
longer than that into an error. -/
def sscanfDocChunk (inp : List Char) : Except ScanError (Int × Int) :=
  match advanceLit "doc_".toList inp with
  | .error e => .error e
  | .ok i1 =>
    match skipSpace i1 with
    | .error e => .error e
    | .ok i2 =>
      match scanInt i2 with
      | .error e => .error e
      | .ok (docID, i3) =>
        match advanceLit "_chunk_".toList i3 with
        | .error e => .error e
        | .ok i4 =>
          match skipSpace i4 with
          | .error e => .error e
          | .ok i5 =>
            match scanInt i5 with
            | .error e => .error e
            | .ok (chunkIdx, _) => .ok (docID, chunkIdx)

/-- Error value of `ParseChunkID`: the scanner error wrapped as
`failed to parse chunk ID: %w`. -/
structure ParseChunkError where
  cause : ScanError
  deriving DecidableEq, Repr

/-- Source `ParseChunkID` (vector_service.go): returns
`(documentID, chunkIndex, err)`; on a scan error both integers are zero. -/
def ParseChunkID (chunkID : String) : Int × Int × Option ParseChunkError :=
  match sscanfDocChunk chunkID.toList with
  | .error e => (0, 0, some ⟨e⟩)
  | .ok (docID, chunkIdx) => (docID, chunkIdx, none)

/-- Value of a digit string read left to right from accumulator `n`. -/
def decVal (n : Nat) (cs : List Char) : Nat :=
  cs.foldl (fun a c => a * 10 + digitVal c) n

/-- Digit loop of the fast path of `strconv.Atoi`. -/
def atoiLoop : Int → List Char → Except ScanError Int
  | n, [] => .ok n
  | n, ch :: cs =>
    if !isDecDigit ch then .error .syntaxErr
    else atoiLoop (n * 10 + (digitVal ch : Int)) cs

/-- Fast path of `strconv.Atoi` (taken for 1 to 18 bytes): strip one sign,
require a non-empty rest, accumulate the digits, negate after a minus. -/
def atoiFast (s : List Char) : Except ScanError Int :=
  match s with
  | [] => .error .syntaxErr
  | c0 :: rest =>
    let body := if c0 = '-' ∨ c0 = '+' then rest else c0 :: rest
    if body = [] then .error .syntaxErr
    else
      match atoiLoop 0 body with
      | .error e => .error e
      | .ok n => .ok (if c0 = '-' then -n else n)

/-- Go `strconv.Atoi` with 64-bit `int`: the fast path for short inputs,
`ParseInt(s, 10, 0)` otherwise. -/
def Atoi (s : String) : Except ScanError Int :=
  if 0 < s.utf8ByteSize ∧ s.utf8ByteSize < 19 then atoiFast s.toList
  else ParseInt s.toList

/-! ## Documents (pkg/models/document.go) -/

/-- A clock reading as `time.Now()` hands it to `Format`: the fields of the
local calendar time. -/
structure Time where
  year : Nat
  month : Nat
  day : Nat
  hour : Nat
  minute : Nat
  second : Nat
  nanosecond : Nat
  deriving DecidableEq, Repr

/-- Zero-padded decimal of at least `width` digits (`appendInt`). -/
def padInt (width n : Nat) : String :=
  String.mk (List.replicate (width - (fmtUint n).length) '0' ++ fmtUint n)

/-- Go `t.Format("20060102_150405")`: resolution of one second, no zone. -/
def Time.Format (t : Time) : String :=
  padInt 4 t.year ++ padInt 2 t.month ++ padInt 2 t.day ++ "_" ++
  padInt 2 t.hour ++ padInt 2 t.minute ++ padInt 2 t.second

/-- Source `models.Document`. -/
structure Document where
  ID : Int
  FileName : String
  FilePath : String
  FileSize : Int
  ContentHash : String
  UploadedAt : Time
  ProcessedAt : Option Time
  Status : String
  deriving DecidableEq, Repr

/-- Source constant `models.DocumentStatusPending`. -/
def DocumentStatusPending : String := "pending"

/-! ## The catalog (database.go, document_repository.go)

The SQLite database is modelled without I/O faults: a statement fails
exactly when a declared constraint of the table is violated. Row ids are
unbounded integers (exhaustion of the 63-bit rowid space is outside the
model). -/

/-- One column of a `CREATE TABLE` statement, with the constraints that
matter for inserts. -/
structure ColumnDef where
  name : String
  autoincrementKey : Bool
  notNull : Bool
  unique : Bool
  deriving DecidableEq, Repr

/-- Source `Database.createTables`: the column list of the `documents`
table, constraint by constraint as in the SQL text. Only `id` (primary key)
and `file_path` carry a uniqueness constraint; `idx_documents_status`,
`idx_documents_uploaded_at` and `idx_documents_content_hash` are plain
(non-unique) indexes and constrain nothing. -/
def createTables : List ColumnDef :=
  [ ⟨"id", true, false, true⟩,
    ⟨"file_name", false, true, false⟩,
    ⟨"file_path", false, true, true⟩,
    ⟨"file_size", false, true, false⟩,
    ⟨"content_hash", false, true, false⟩,
    ⟨"uploaded_at", false, true, false⟩,
    ⟨"processed_at", false, false, false⟩,
    ⟨"status", false, true, false⟩ ]

/-- A value stored in a column. -/
inductive SqlValue where
  | null
  | integer (i : Int)
  | text (s : String)
  | datetime (t : Time)
  deriving DecidableEq, Repr

/-- The value a row holds in the named column. -/
def Document.column (d : Document) (col : String) : SqlValue :=
  if col = "id" then .integer d.ID
  else if col = "file_name" then .text d.FileName
  else if col = "file_path" then .text d.FilePath
  else if col = "file_size" then .integer d.FileSize
  else if col = "content_hash" then .text d.ContentHash
  else if col = "uploaded_at" then .datetime d.UploadedAt
  else if col = "processed_at" then
    (match d.ProcessedAt with
     | some t => .datetime t
     | none => .null)
  else if col = "status" then .text d.Status
  else .null

/-- State of the `documents` table: its rows in rowid order and the
`sqlite_sequence` counter kept for the AUTOINCREMENT key. -/
structure Database where
  rows : List Document
  seq : Int
  deriving DecidableEq, Repr

/-- Errors reported by the database engine. -/
inductive DbError where
  | uniqueConstraint (column : String)
  deriving DecidableEq, Repr

/-- Errors returned by the repository. -/
inductive RepoError where
  | insertFailed (cause : DbError)
  | notFound
  deriving DecidableEq, Repr

/-- Rowid given to the next inserted row under AUTOINCREMENT: one more
than the largest rowid the table has held. -/
def Database.nextRowid (db : Database) : Int :=
  (db.rows.map (fun r => r.ID)).foldr max db.seq + 1

/-- First declared uniqueness constraint (other than the generated key)
that `row` would violate against `rows`, if any. -/
def violatedUnique (schema : List ColumnDef) (rows : List Document) (row : Document) :
    Option String :=
  match schema.find? (fun c => c.unique && !c.autoincrementKey &&
      rows.any (fun r => r.column c.name = row.column c.name)) with
  | some c => some c.name
  | none => none

/-- Source `DocumentRepository.Insert`: the INSERT names every column but
`id` and `processed_at`; on success the generated id is written into the
caller's struct. Returns the error (if any), the caller's struct after the
call, and the table after the call. -/
def DocumentRepository.Insert (db : Database) (doc : Document) :
    Option RepoError × Document × Database :=
  let id := db.nextRowid
  let row : Document := { doc with ID := id, ProcessedAt := none }
  match violatedUnique createTables db.rows row with
  | some col => (some (.insertFailed (.uniqueConstraint col)), doc, db)
  | none => (none, { doc with ID := id }, { rows := db.rows ++ [row], seq := id })

/-- Source `DocumentRepository.GetByID`. -/
def DocumentRepository.GetByID (db : Database) (id : Int) : Except RepoError Document :=
  match db.rows.find? (fun r => r.ID = id) with
  | some r => .ok r
  | none => .error .notFound

/-- Source `DocumentRepository.GetByContentHash`: `QueryRow` yields the
first matching row (lowest rowid). -/
def DocumentRepository.GetByContentHash (db : Database) (hash : String) :
    Except RepoError Document :=
  match db.rows.find? (fun r => r.ContentHash = hash) with
  | some r => .ok r
  | none => .error .notFound

/-- Source `DocumentRepository.Delete`: removes the rows with the id; a
DELETE that matches nothing is not an error. -/
def DocumentRepository.Delete (db : Database) (id : Int) : Option RepoError × Database :=
  (none, { db with rows := db.rows.filter (fun r => r.ID ≠ id) })

/-! ## The blob store (file_storage.go)

The filesystem is a finite map from paths to file contents. Removing and
renaming fail exactly when the modelled state makes them fail (the path is
absent). Whether the three write steps of `SaveDocument` succeed is decided
by the operating system and is an input of the model, like the clock and
the random part of the temporary name. Paths are joined by plain
concatenation, which is what `filepath.Join` yields for a clean data
directory and a file name without separators. -/

/-- File contents. -/
abbrev Bytes := List UInt8

/-- The files on disk. -/
abbrev FileSystem := String → Option Bytes

/-- File creation or truncating write of the whole content. -/
def FileSystem.write (fsys : FileSystem) (path : String) (content : Bytes) : FileSystem :=
  fun q => if q = path then some content else fsys q

/-- Errors of the blob store. -/
inductive StorageError where
  | createTemp
  | copy
  | rename
  | notExist
  deriving DecidableEq, Repr

/-- Go `os.Remove` on a file path. -/
def osRemove (fsys : FileSystem) (path : String) : Option StorageError × FileSystem :=
  match fsys path with
  | none => (some .notExist, fsys)
  | some _ => (none, fun q => if q = path then none else fsys q)

/-- Go `os.Rename`: the target is replaced if it exists. -/
def osRename (fsys : FileSystem) (oldpath newpath : String) :
    Option StorageError × FileSystem :=
  match fsys oldpath with
  | none => (some .notExist, fsys)
  | some content =>
    if oldpath = newpath then (none, fsys)
    else (none, fun q => if q = newpath then some content
                         else if q = oldpath then none else fsys q)

/-- Source `FileStorage`. -/
structure FileStorage where
  dataDir : String
  deriving DecidableEq, Repr

/-- Outcome of the write steps of one `SaveDocument` call, as decided by
the operating system. -/
inductive WriteOutcome where
  | succeeds
  | createTempFails
  | copyFails (written : Bytes)
  | renameFails
  deriving DecidableEq, Repr

/-- Source `FileStorage.SaveDocument`. `sha256hex` is the hex digest
(`crypto/sha256`), `rnd` the random part of the name `os.CreateTemp` chose,
`now` the reading of `time.Now()`. Returns `(path, hash, size)` or the
error, and the filesystem after the call (the deferred removal of the
temporary file included). -/
def FileStorage.SaveDocument (sha256hex : Bytes → String) (s : FileStorage)
    (fsys : FileSystem) (io : WriteOutcome) (rnd : String) (now : Time)
    (fileName : String) (content : Bytes) :
    Except StorageError (String × String × Int) × FileSystem :=
  let tempName := s.dataDir ++ "/upload_" ++ rnd ++ ".tmp"
  match io with
  | .createTempFails => (.error .createTemp, fsys)
  | .copyFails written =>
    (.error .copy, (osRemove (fsys.write tempName written) tempName).2)
  | .renameFails =>
    (.error .rename, (osRemove (fsys.write tempName content) tempName).2)
  | .succeeds =>
    let fs1 := fsys.write tempName content
    let size : Int := content.length
    let contentHash := sha256hex content
    let timestamp := now.Format
    let safeFileName := timestamp ++ "_" ++ fileName
    let finalPath := s.dataDir ++ "/documents/" ++ safeFileName
    let fs2 := (osRename fs1 tempName finalPath).2
    ((.ok (finalPath, contentHash, size)), (osRemove fs2 tempName).2)

/-- Source `FileStorage.DeleteDocument`. -/
def FileStorage.DeleteDocument (fsys : FileSystem) (filePath : String) :
    Option StorageError × FileSystem :=
  osRemove fsys filePath

/-- Source `FileStorage.DocumentExists`. -/
def FileStorage.DocumentExists (fsys : FileSystem) (filePath : String) : Bool :=
  (fsys filePath).isSome

/-! ## The document store (storage_service.go) -/

/-- Errors returned by `StorageService`. -/
inductive StoreError where
  | storage (e : StorageError)
  | repo (e : RepoError)
  deriving DecidableEq, Repr

/-- The two resources the service owns: the files and the catalog. -/
structure World where
  fsys : FileSystem
  db : Database

/-- Source `StorageService.StoreDocument`. `tSave` is the clock reading
inside `SaveDocument`, `tUpload` the later reading stored as `UploadedAt`.
Errors of the two compensating `DeleteDocument` calls are dropped, as in
the source. -/
def StorageService.StoreDocument (sha256hex : Bytes → String) (s : FileStorage)
    (w : World) (io : WriteOutcome) (rnd : String) (tSave tUpload : Time)
    (fileName : String) (content : Bytes) : Except StoreError Document × World :=
  match s.SaveDocument sha256hex w.fsys io rnd tSave fileName content with
  | (.error e, fs1) => (.error (.storage e), { fsys := fs1, db := w.db })
  | (.ok (filePath, contentHash, fileSize), fs1) =>
    match DocumentRepository.GetByContentHash w.db contentHash with
    | .ok existing =>
      (.ok existing, { fsys := (FileStorage.DeleteDocument fs1 filePath).2, db := w.db })
    | .error _ =>
      let doc : Document :=
        { ID := 0, FileName := fileName, FilePath := filePath, FileSize := fileSize,
          ContentHash := contentHash, UploadedAt := tUpload, ProcessedAt := none,
          Status := DocumentStatusPending }
      match DocumentRepository.Insert w.db doc with
      | (some e, _, db1) =>
        (.error (.repo e), { fsys := (FileStorage.DeleteDocument fs1 filePath).2, db := db1 })
      | (none, doc1, db1) => (.ok doc1, { fsys := fs1, db := db1 })

/-- Source `StorageService.GetDocument`. -/
def StorageService.GetDocument (w : World) (id : Int) : Except RepoError Document :=
  DocumentRepository.GetByID w.db id

/-- Source `StorageService.DeleteDocument`: read the row, remove the blob,
then delete the row; the first error ends the call. -/
def StorageService.DeleteDocument (w : World) (id : Int) : Option StoreError × World :=
  match DocumentRepository.GetByID w.db id with
  | .error e => (some (.repo e), w)
  | .ok doc =>
    match FileStorage.DeleteDocument w.fsys doc.FilePath with
    | (some e, fs1) => (some (.storage e), { fsys := fs1, db := w.db })
    | (none, fs1) =>
      match DocumentRepository.Delete w.db id with
      | (some e, db1) => (some (.repo e), { fsys := fs1, db := db1 })
      | (none, db1) => (none, { fsys := fs1, db := db1 })

/-! ## The vector index client (vector_store.go)

The remote collection is an input of the model: `add` gives the error (if
any) the backend answers to an add request, `query` its answer to a
nearest-neighbour query. Embedding vectors are never inspected by this
code and are an abstract type `E`. Distances and scores are rationals
(exact arithmetic; `float32` rounding is not modelled). -/

/-- Go `map[string]V` read as a finite partial function. -/
abbrev GoMap (V : Type) := String → Option V

/-- Result of `make(map[string]V)`. -/
def GoMap.empty {V : Type} : GoMap V := fun _ => none

/-- Assignment `m[k] = v`. -/
def GoMap.set {V : Type} (m : GoMap V) (k : String) (v : V) : GoMap V :=
  fun q => if q = k then some v else m q

/-- Loop `for k, v := range src { dst[k] = f(v) }`. -/
def GoMap.copyInto {V W : Type} (dst : GoMap W) (src : GoMap V) (f : V → W) : GoMap W :=
  fun q =>
    match src q with
    | some v => some (f v)
    | none => dst q

/-- A value of type `interface{}` in a metadata map: a string or anything
else (number, boolean, nested value). -/
inductive MetaValue where
  | str (s : String)
  | other (tag : Nat)
  deriving DecidableEq, Repr

/-- Source `DocumentChunk`. -/
structure DocumentChunk where
  ID : String
  Content : String
  DocumentID : Int
  ChunkIndex : Int
  Metadata : GoMap String

/-- Source `SearchResult`; `Metadata` is `none` for a nil map. -/
structure SearchResult where
  ID : String
  Content : String
  DocumentID : Int
  ChunkIndex : Int
  Score : Rat
  Metadata : Option (GoMap String)

/-- Arguments of one `collection.Add` call. -/
structure AddRequest (E : Type) where
  embeddings : List E
  metadatas : List (GoMap MetaValue)
  documents : List String
  ids : List String

/-- Answer of the backend to a query (`chroma.QueryResults`). -/
structure QueryResults where
  Documents : List (List String)
  Ids : List (List String)
  Metadatas : List (List (GoMap MetaValue))
  Distances : List (List Rat)

/-- The remote collection as seen by the client. -/
structure Collection (E : Type) where
  add : AddRequest E → Option String
  query : E → Int → Except String QueryResults

/-- Errors returned by the vector client and the chunk index service. -/
inductive VectorError where
  | serviceLengthMismatch
  | storeLengthMismatch (chunks embeddings : Nat)
  | addFailed (cause : String)
  | queryFailed (cause : String)
  deriving DecidableEq, Repr

/-- Metadata map built for one chunk inside the loop of `AddChunks`: the
two injected keys first, then every caller-supplied entry assigned on top. -/
def chunkMetadata (chunk : DocumentChunk) : GoMap MetaValue :=
  let m0 : GoMap MetaValue := GoMap.empty
  let m1 := m0.set "document_id" (.str (Itoa chunk.DocumentID))
  let m2 := m1.set "chunk_index" (.str (Itoa chunk.ChunkIndex))
  GoMap.copyInto m2 chunk.Metadata MetaValue.str

/-- The four parallel slices the loop of `AddChunks` builds (one entry
per chunk, `embeddings[i]` for chunk `i`). -/
def addRequestOf {E : Type} (chunks : List DocumentChunk) (embeddings : List E) :
    AddRequest E :=
  { embeddings := embeddings.take chunks.length,
    metadatas := chunks.map chunkMetadata,
    documents := chunks.map (fun c => c.Content),
    ids := chunks.map (fun c => c.ID) }

/-- Source `VectorStore.AddChunks`. Returns the error (if any) and the
list of requests sent to the backend. -/
def VectorStore.AddChunks {E : Type} (coll : Collection E) (chunks : List DocumentChunk)
    (embeddings : List E) : Option VectorError × List (AddRequest E) :=
  if chunks.length ≠ embeddings.length then
    (some (.storeLengthMismatch chunks.length embeddings.length), [])
  else
    match coll.add (addRequestOf chunks embeddings) with
    | some e => (some (.addFailed e), [addRequestOf chunks embeddings])
    | none => (none, [addRequestOf chunks embeddings])

/-- Conversion `int32(limit)` of a Go `int`. -/
def toInt32 (x : Int) : Int := (x + 2 ^ 31) % 2 ^ 32 - 2 ^ 31

/-- How a call ends: with a value, with a returned error, or with a
run-time panic (index out of range). -/
inductive Outcome (α : Type) where
  | ok (a : α)
  | err (e : VectorError)
  | panic
  
/-- Integer field of a returned metadata map: the value must be a string
that `Atoi` accepts, otherwise the zero value stays. -/
def metaInt (meta : GoMap MetaValue) (key : String) : Int :=
  match meta key with
  | some (.str s) =>
    (match Atoi s with
     | .ok v => v
     | .error _ => 0)
  | _ => 0

/-- Residual metadata of a hit: every string-valued entry except the two
injected keys. -/
def residualMetadata (meta : GoMap MetaValue) : GoMap String :=
  fun k =>
    if k ≠ "document_id" ∧ k ≠ "chunk_index" then
      (match meta k with
       | some (.str strVal) => some strVal
       | _ => none)
    else none

/-- The `SearchResult` assembled by the loop body of `SearchSimilar` for
index `i`, given the identifier `results.Ids[0][i]`: integers and residual
metadata from the metadata row when it reaches `i` (zero values and a nil
map otherwise), score `1 - distance` when the distance row reaches `i`
(zero otherwise). -/
def searchResultFields (results : QueryResults) (i : Nat) (id : String) : SearchResult :=
  let metaRow := results.Metadatas.head?.getD []
  let meta : GoMap MetaValue := metaRow.getD i GoMap.empty
  let distRow := results.Distances.head?.getD []
  { ID := id,
    Content := (results.Documents.head?.getD []).getD i "",
    DocumentID :=
      if results.Metadatas.length > 0 ∧ metaRow.length > i then metaInt meta "document_id"
      else 0,
    ChunkIndex :=
      if results.Metadatas.length > 0 ∧ metaRow.length > i then metaInt meta "chunk_index"
      else 0,
    Score :=
      if results.Distances.length > 0 ∧ distRow.length > i then 1 - distRow.getD i 0 else 0,
    Metadata :=
      if results.Metadatas.length > 0 ∧ metaRow.length > i then some (residualMetadata meta)
      else none }

/-- Body of the loop of `SearchSimilar` for index `i` (which is below
`len(results.Documents[0])`): indexing `results.Ids[0][i]` panics when the
id rows are missing or too short. -/
def searchResultAt (results : QueryResults) (i : Nat) : Outcome SearchResult :=
  match results.Ids.head? with
  | none => .panic
  | some idRow =>
    match idRow.get? i with
    | none => .panic
    | some id => .ok (searchResultFields results i id)

/-- The loop `for i := 0; i < n; i++` of `SearchSimilar`: results for
indices `0 .. n-1` in order; the first panic ends the call. -/
def searchLoop (results : QueryResults) : Nat → Outcome (List SearchResult)
  | 0 => .ok []
  | n + 1 =>
    match searchLoop results n with
    | .ok acc =>
      (match searchResultAt results n with
       | .ok r => .ok (acc ++ [r])
       | .err e => .err e
       | .panic => .panic)
    | .err e => .err e
    | .panic => .panic

/-- Source `VectorStore.SearchSimilar`. -/
def VectorStore.SearchSimilar {E : Type} (coll : Collection E) (queryEmbedding : E)
    (limit : Int) : Outcome (List SearchResult) :=
  match coll.query queryEmbedding (toInt32 limit) with
  | .error e => .err (.queryFailed e)
  | .ok results =>
    if results.Documents.length = 0 ∨ (results.Documents.head?.getD []).length = 0 then
      .ok []
    else searchLoop results (results.Documents.head?.getD []).length

/-! ## The chunk index service (vector_service.go) -/

/-- Chunk built by the loop of `StoreDocumentChunks` for index `i`. -/
def buildChunk (documentID : Int) (metadata : GoMap String) (i : Nat) (chunk : String) :
    DocumentChunk :=
  { ID := String.mk (sprintfDocChunk documentID i),
    Content := chunk,
    DocumentID := documentID,
    ChunkIndex := i,
    Metadata := GoMap.copyInto GoMap.empty metadata id }

/-- The slice `documentChunks` built by the loop of `StoreDocumentChunks`. -/
def buildChunks (documentID : Int) (metadata : GoMap String) (chunks : List String) :
    List DocumentChunk :=
  chunks.enum.map (fun p => buildChunk documentID metadata p.1 p.2)

/-- Source `VectorService.StoreDocumentChunks`. Returns the error (if any)
and the list of requests sent to the backend. -/
def VectorService.StoreDocumentChunks {E : Type} (coll : Collection E) (documentID : Int)
    (chunks : List String) (embeddings : List E) (metadata : GoMap String) :
    Option VectorError × List (AddRequest E) :=
  if chunks.length ≠ embeddings.length then (some .serviceLengthMismatch, [])
  else VectorStore.AddChunks coll (buildChunks documentID metadata chunks) embeddings

/-- Source `VectorService.SearchRelevantChunks`. -/
def VectorService.SearchRelevantChunks {E : Type} (coll : Collection E)
    (queryEmbedding : E) (limit : Int) : Outcome (List SearchResult) :=
  VectorStore.SearchSimilar coll queryEmbedding limit

/-! ## What `ParseChunkID` accepts -/

/-- The token `tok` is an optionally signed, non-empty run of decimal
digits whose value `v` fits the Go `int`. -/
def IsIntToken (tok : List Char) (v : Int) : Prop :=
  ∃ sgn ds, tok = sgn ++ ds ∧ (sgn = [] ∨ sgn = ['+'] ∨ sgn = ['-']) ∧ ds ≠ [] ∧
    (∀ c ∈ ds, isDecDigit c = true) ∧
    v = (if sgn = ['-'] then -(decVal 0 ds : Int) else (decVal 0 ds : Int)) ∧ IsGoInt v

/-- A blank that `SkipSpace` consumes: white space other than a newline. -/
def isBlank (r : Char) : Bool := isSpace r && r != '\n'

/-- The input starts with `doc_`, optional blanks, an integer token,
`_chunk_`, optional blanks and a second integer token; anything may
follow. The two tokens denote `d` and `c`. -/
def LenientChunkID (inp : List Char) (d c : Int) : Prop :=
  ∃ ws1 tok1 ws2 tok2 rest,
    inp = "doc_".toList ++ ws1 ++ tok1 ++ "_chunk_".toList ++ ws2 ++ tok2 ++ rest ∧
    (∀ x ∈ ws1, isBlank x = true) ∧ IsIntToken tok1 d ∧
    (∀ x ∈ ws2, isBlank x = true) ∧ IsIntToken tok2 c

/-! ## Concrete scenarios used by the theorems -/

/-- A world with no file and an empty `documents` table. -/
def emptyWorld : World := { fsys := fun _ => none, db := ⟨[], 0⟩ }

/-- A clock reading shortly after noon. -/
def noonEarly : Time := ⟨2024, 1, 1, 12, 0, 0, 100⟩

/-- A later clock reading within the same second. -/
def noonLate : Time := ⟨2024, 1, 1, 12, 0, 0, 900⟩

/-- Path both readings produce for the name `a.txt` under `/data`. -/
def noonPath : String := "/data/documents/20240101_120000_a.txt"

/-- Upload of `a.txt` with bytes `1 2 3` into the empty world. -/
def firstUpload (sha256hex : Bytes → String) : Except StoreError Document × World :=
  StorageService.StoreDocument sha256hex ⟨"/data"⟩ emptyWorld .succeeds "1" noonEarly noonEarly
    "a.txt" [1, 2, 3]

/-- The same upload repeated within the same second. -/
def secondUpload (sha256hex : Bytes → String) : Except StoreError Document × World :=
  StorageService.StoreDocument sha256hex ⟨"/data"⟩ (firstUpload sha256hex).2 .succeeds "2"
    noonLate noonLate "a.txt" [1, 2, 3]

/-- Catalog row written by `firstUpload`. -/
def uploadedRow (sha256hex : Bytes → String) : Document :=
  ⟨1, "a.txt", noonPath, 3, sha256hex [1, 2, 3], noonEarly, none, "pending"⟩

/-- First of two blob writes of `a.txt` within one second. -/
def firstSave (sha256hex : Bytes → String) :
    Except StorageError (String × String × Int) × FileSystem :=
  FileStorage.SaveDocument sha256hex ⟨"/data"⟩ (fun _ => none) .succeeds "1" noonEarly
    "a.txt" [1]

/-- Second blob write, other bytes, same name, same second. -/
def secondSave (sha256hex : Bytes → String) :
    Except StorageError (String × String × Int) × FileSystem :=
  FileStorage.SaveDocument sha256hex ⟨"/data"⟩ (firstSave sha256hex).2 .succeeds "2" noonLate
    "a.txt" [2]

/-- A table holding one row with path `/p1` and hash `h`. -/
def oneRowDb : Database :=
  ⟨[⟨1, "a", "/p1", 3, "h", noonEarly, none, "pending"⟩], 1⟩

/-- A new document with another path and the same hash `h`. -/
def sameHashDoc : Document := ⟨0, "b", "/p2", 3, "h", noonLate, none, "pending"⟩

/-- A new document with the path `/p1` already in the table. -/
def samePathDoc : Document := ⟨0, "b", "/p1", 4, "g", noonLate, none, "pending"⟩

/-- A collection that accepts every add and answers every query with an
empty result. -/
def okCollection : Collection (List Rat) :=
  { add := fun _ => none, query := fun _ _ => .ok ⟨[], [], [], []⟩ }

/-- A chunk of document 7 whose caller metadata uses the key
`document_id`. -/
def clobberChunk : DocumentChunk :=
  { ID := "doc_7_chunk_0", Content := "text", DocumentID := 7, ChunkIndex := 0,
    Metadata := GoMap.set GoMap.empty "document_id" "999" }

/-- Caller metadata of the service test: file name and author. -/
def testMetadata : GoMap String :=
  GoMap.set (GoMap.set GoMap.empty "filename" "test.pdf") "author" "test_author"

/-- Answer of a backend that returns the second stored chunk of document
999 as its only hit. -/
def echoResults : QueryResults :=
  { Documents := [["second"]],
    Ids := [["doc_999_chunk_1"]],
    Metadatas := [[chunkMetadata (buildChunk 999 testMetadata 1 "second")]],
    Distances := [[1 / 4]] }

/-- A collection that accepts every add and answers every query with
`echoResults`. -/
def echoCollection : Collection (List Rat) :=
  { add := fun _ => none, query := fun _ _ => .ok echoResults }

/-- A stand-in digest for concrete scenarios: the decimal length of the
content. -/
def lengthDigest : Bytes → String := fun b => String.mk (fmtUint b.length)

/-- The world after `a.txt` (bytes `1 2 3`) was stored at noon. -/
def storedWorld : World :=
  { fsys := fun q => if q = noonPath then some [1, 2, 3] else none,
    db := ⟨[uploadedRow lengthDigest], 1⟩ }

/-- A world whose catalog holds the row of `a.txt` while no file is on
disk (the blob was lost). -/
def danglingWorld : World :=
  { fsys := fun _ => none, db := ⟨[uploadedRow lengthDigest], 1⟩ }

/-- Answer of a backend with two hits at distances `1/4` and `3/2`. -/
def twoHitResults : QueryResults :=
  { Documents := [["near", "far"]],
    Ids := [["doc_1_chunk_0", "doc_1_chunk_1"]],
    Metadatas := [[]],
    Distances := [[1 / 4, 3 / 2]] }

/-- A collection that answers every query with `twoHitResults`. -/
def twoHitCollection : Collection (List Rat) :=
  { add := fun _ => none, query := fun _ _ => .ok twoHitResults }

/-- A collection whose queries fail. -/
def downCollection : Collection (List Rat) :=
  { add := fun _ => none, query := fun _ _ => .error "connection refused" }

/-! ## Lemmas: decimal rendering and scanning -/

theorem digitChar_props (d : Nat) (h : d < 10) :
    isDecDigit (digitChar d) = true ∧ digitVal (digitChar d) = d ∧
    isSpace (digitChar d) = false ∧ isSign (digitChar d) = false ∧
    digitChar d ≠ '\r' ∧ digitChar d ≠ '\n' ∧ (digitChar d).utf8Size = 1 := by
  interval_cases d <;> decide

theorem fmtUintAux_fuel (f1 : Nat) : ∀ (f2 u : Nat), u < f1 → u < f2 →
    fmtUintAux f1 u = fmtUintAux f2 u := by
  induction f1 with
  | zero => intro f2 u h; omega
  | succ n ih =>
    intro f2 u h1 h2
    cases f2 with
    | zero => omega
    | succ m =>
      simp only [fmtUintAux]
      by_cases hu : u < 10
      · simp [hu]
      · simp only [hu, if_false]
        rw [ih m (u / 10) (by omega) (by omega)]

theorem fmtUint_unfold (u : Nat) :
    fmtUint u = if u < 10 then [digitChar u]
      else fmtUint (u / 10) ++ [digitChar (u % 10)] := by
  by_cases hu : u < 10
  · simp [fmtUint, fmtUintAux, hu]
  · have h : fmtUintAux (u + 1) u = fmtUintAux u (u / 10) ++ [digitChar (u % 10)] := by
      simp [fmtUintAux, hu]
    have h2 : fmtUint (u / 10) = fmtUintAux u (u / 10) :=
      fmtUintAux_fuel (u / 10 + 1) u (u / 10) (by omega) (by omega)
    rw [if_neg hu, h2, ← h]
    rfl

theorem fmtUint_digits (u : Nat) : ∀ c ∈ fmtUint u, isDecDigit c = true := by
  induction u using Nat.strong_induction_on with
  | _ u ih =>
    intro c hc
    rw [fmtUint_unfold] at hc
    by_cases hu : u < 10
    · simp only [hu, if_true, List.mem_singleton] at hc
      subst hc
      exact (digitChar_props u hu).1
    · simp only [hu, if_false, List.mem_append, List.mem_singleton] at hc
      rcases hc with hc | hc
      · exact ih (u / 10) (by omega) c hc
      · subst hc
        exact (digitChar_props (u % 10) (by omega)).1

theorem fmtUint_ne_nil (u : Nat) : fmtUint u ≠ [] := by
  rw [fmtUint_unfold]
  by_cases hu : u < 10 <;> simp [hu]

theorem decVal_ge (cs : List Char) : ∀ n, n ≤ decVal n cs := by
  induction cs with
  | nil => intro n; simp [decVal]
  | cons c cs ih =>
    intro n
    have h := ih (n * 10 + digitVal c)
    simp only [decVal, List.foldl_cons] at h ⊢
    omega

theorem decVal_fmtUint (u : Nat) : decVal 0 (fmtUint u) = u := by
  induction u using Nat.strong_induction_on with
  | _ u ih =>
    rw [fmtUint_unfold]
    by_cases hu : u < 10
    · simp [hu, decVal, (digitChar_props u hu).2.1]
    · have h1 := ih (u / 10) (by omega)
      simp only [decVal] at h1
      simp only [hu, if_false, decVal, List.foldl_append, List.foldl_cons, List.foldl_nil, h1,
        (digitChar_props (u % 10) (by omega)).2.1]
      omega

theorem parseUintLoop_digits (cs : List Char) : ∀ n,
    (∀ c ∈ cs, isDecDigit c = true) → decVal n cs < 2 ^ 64 →
    parseUintLoop n cs = .ok (decVal n cs) := by
  induction cs with
  | nil => intro n _ _; simp [parseUintLoop, decVal]
  | cons c cs ih =>
    intro n hd hv
    have hc : isDecDigit c = true := hd c (by simp)
    have hrest : ∀ x ∈ cs, isDecDigit x = true := fun x hx => hd x (by simp [hx])
    have hv2 : decVal (n * 10 + digitVal c) cs < 2 ^ 64 := by
      simpa [decVal] using hv
    have hge := decVal_ge cs (n * 10 + digitVal c)
    have hstep := ih (n * 10 + digitVal c) hrest hv2
    norm_num at hv2
    have h1 : ¬ (n ≥ (2 ^ 64 - 1) / 10 + 1) := by norm_num; omega
    have h2 : ¬ (n * 10 + digitVal c > 2 ^ 64 - 1) := by norm_num; omega
    simp only [parseUintLoop, hc, Bool.not_true, Bool.false_eq_true, if_false, h1, h2]
    simpa [decVal] using hstep

theorem ParseUint_fmtUint (u : Nat) (h : u < 2 ^ 64) : ParseUint (fmtUint u) = .ok u := by
  unfold ParseUint
  rw [if_neg (fmtUint_ne_nil u),
    parseUintLoop_digits (fmtUint u) 0 (fmtUint_digits u) (by rw [decVal_fmtUint]; exact h),
    decVal_fmtUint]

theorem digit_not_sign (c : Char) (h : isDecDigit c = true) :
    isSign c = false ∧ isSpace c = false ∧ c ≠ '+' ∧ c ≠ '-' := by
  have h1 : 48 ≤ c.toNat ∧ c.toNat ≤ 57 := by
    simpa [isDecDigit] using h
  have e1 : ('+' : Char).toNat = 43 := by decide
  have e2 : ('-' : Char).toNat = 45 := by decide
  have n1 : c ≠ '+' := by
    intro hc; rw [hc, e1] at h1; omega
  have n2 : c ≠ '-' := by
    intro hc; rw [hc, e2] at h1; omega
  refine ⟨by simp [isSign, n1, n2], ?_, n1, n2⟩
  simp only [isSpace, Bool.or_eq_false_iff, Bool.and_eq_false_iff, beq_eq_false_iff_ne,
    decide_eq_false_iff_not]
  omega

theorem ParseInt_fmtInt (x : Int) (hx : IsGoInt x) : ParseInt (fmtInt x) = .ok x := by
  obtain ⟨hlo, hhi⟩ := hx
  norm_num at hlo hhi
  by_cases hneg : x < 0
  · have hu : x.natAbs < 2 ^ 64 := by norm_num; omega
    have hb : ¬ (9223372036854775808 < x.natAbs) := by omega
    have hval : -|x| = x := by rw [abs_of_neg hneg, neg_neg]
    simp [fmtInt, hneg, ParseInt, ParseUint_fmtUint _ hu, hb, hval]
  · obtain ⟨d, ds, hds⟩ := List.exists_cons_of_ne_nil (fmtUint_ne_nil x.natAbs)
    have hd : isDecDigit d = true := fmtUint_digits x.natAbs d (by simp [hds])
    obtain ⟨-, -, n1, n2⟩ := digit_not_sign d hd
    have hu : x.natAbs < 2 ^ 64 := by norm_num; omega
    have hb : x.natAbs < 9223372036854775808 := by omega
    have hval : |x| = x := abs_of_nonneg (by omega)
    have hp := ParseUint_fmtUint _ hu
    rw [hds] at hp
    simp [fmtInt, hneg, hds, ParseInt, n1, n2, hp, hb, hval]

theorem skipSpace_of_not_space (c : Char) (cs : List Char) (h : isSpace c = false) :
    skipSpace (c :: cs) = .ok (c :: cs) := by
  have h1 : c ≠ '\r' := by intro hc; rw [hc] at h; revert h; decide
  have h2 : c ≠ '\n' := by intro hc; rw [hc] at h; revert h; decide
  simp [skipSpace, h, h1, h2]

theorem takeWhile_dropWhile_append (p : Char → Bool) (xs rest : List Char)
    (hx : ∀ c ∈ xs, p c = true) (hr : ∀ c, rest.head? = some c → p c = false) :
    (xs ++ rest).takeWhile p = xs ∧ (xs ++ rest).dropWhile p = rest := by
  induction xs with
  | nil =>
    cases rest with
    | nil => simp
    | cons r rs => simp [List.takeWhile, List.dropWhile, hr r (by simp)]
  | cons x xs ih =>
    have hpx : p x = true := hx x (by simp)
    have := ih (fun c hc => hx c (by simp [hc]))
    simp [List.takeWhile, List.dropWhile, hpx, this]

theorem advanceLit_prefix (lit rest : List Char) : advanceLit lit (lit ++ rest) = .ok rest := by
  induction lit with
  | nil => simp [advanceLit]
  | cons f fs ih => simp [advanceLit, ih]

/-- Scanning the rendering of a Go `int` gives the integer back and stops
right after it, provided the next rune is not a digit. -/
theorem scanInt_fmtInt (x : Int) (rest : List Char) (hx : IsGoInt x)
    (hr : ∀ c, rest.head? = some c → isDecDigit c = false) :
    scanInt (fmtInt x ++ rest) = .ok (x, rest) := by
  have hp := ParseInt_fmtInt x hx
  obtain ⟨d, ds, hds⟩ := List.exists_cons_of_ne_nil (fmtUint_ne_nil x.natAbs)
  have hdig := fmtUint_digits x.natAbs
  rw [hds] at hdig
  have hd : isDecDigit d = true := hdig d (by simp)
  obtain ⟨hs1, hs2, -, -⟩ := digit_not_sign d hd
  obtain ⟨ht, hdr⟩ := takeWhile_dropWhile_append isDecDigit (d :: ds) rest hdig hr
  simp only [List.cons_append] at ht hdr
  by_cases hneg : x < 0
  · have hm : isSpace '-' = false := by decide
    have hsgn : isSign '-' = true := by decide
    simp only [fmtInt, hneg, if_true, hds] at hp ⊢
    simp only [scanInt, List.cons_append, skipSpace_of_not_space _ _ hm, hsgn, if_true,
      scanNumber, hd, Bool.not_true, Bool.false_eq_true, if_false, ht, hdr,
      List.singleton_append, List.nil_append, hp]
  · simp only [fmtInt, hneg, if_false, hds] at hp ⊢
    simp only [scanInt, List.cons_append, skipSpace_of_not_space _ _ hs2, hs1,
      Bool.false_eq_true, if_false, scanNumber, hd, Bool.not_true, ht, hdr,
      List.nil_append, hp]

theorem fmtInt_head_not_space (x : Int) :
    ∃ c cs, fmtInt x = c :: cs ∧ isSpace c = false := by
  by_cases hneg : x < 0
  · exact ⟨'-', fmtUint x.natAbs, by simp [fmtInt, hneg], by decide⟩
  · obtain ⟨d, ds, hds⟩ := List.exists_cons_of_ne_nil (fmtUint_ne_nil x.natAbs)
    have hd : isDecDigit d = true := fmtUint_digits x.natAbs d (by simp [hds])
    exact ⟨d, ds, by simp [fmtInt, hneg, hds], (digit_not_sign d hd).2.1⟩

/-- Scanning the rendered identifier recovers both integers. -/
theorem sscanf_sprintf (d c : Int) (hd : IsGoInt d) (hc : IsGoInt c) :
    sscanfDocChunk (sprintfDocChunk d c) = .ok (d, c) := by
  obtain ⟨a, as, ha, hsa⟩ := fmtInt_head_not_space d
  obtain ⟨b, bs, hb, hsb⟩ := fmtInt_head_not_space c
  have e1 : sprintfDocChunk d c = "doc_".toList ++ (fmtInt d ++ ("_chunk_".toList ++ fmtInt c)) := by
    simp [sprintfDocChunk, List.append_assoc]
  have s1 : skipSpace (fmtInt d ++ ("_chunk_".toList ++ fmtInt c)) =
      .ok (fmtInt d ++ ("_chunk_".toList ++ fmtInt c)) := by
    rw [ha, List.cons_append]; exact skipSpace_of_not_space _ _ hsa
  have s2 : scanInt (fmtInt d ++ ("_chunk_".toList ++ fmtInt c)) =
      .ok (d, "_chunk_".toList ++ fmtInt c) := by
    apply scanInt_fmtInt d _ hd
    intro x hx
    have : x = '_' := by
      have h0 : ("_chunk_".toList ++ fmtInt c).head? = some '_' := by
        simp [String.toList]
      rw [h0] at hx; exact (Option.some.inj hx).symm
    subst this; decide
  have s3 : skipSpace (fmtInt c) = .ok (fmtInt c) := by
    rw [hb]; exact skipSpace_of_not_space _ _ hsb
  have s4 : scanInt (fmtInt c) = .ok (c, []) := by
    have := scanInt_fmtInt c [] hc (by simp)
    simpa using this
  simp only [sscanfDocChunk, e1, advanceLit_prefix, s1, s2, s3, s4]

/-- Scanning what `GenerateChunkID` renders gives both integers back, for
every pair of Go `int`s (negative ones included). -/
theorem ParseChunkID_GenerateChunkID (d c : Int) (hd : IsGoInt d) (hc : IsGoInt c) :
    ParseChunkID (GenerateChunkID d c) = (d, c, none) := by
  simp [ParseChunkID, GenerateChunkID, sscanf_sprintf d c hd hc]

/-! ## Claims -/

/-- C1: for all non-negative Go integers `documentID` and `chunkIndex`,
`ParseChunkID (GenerateChunkID documentID chunkIndex)` returns
`(documentID, chunkIndex)` with a nil error; in particular
`GenerateChunkID 42 3` is `doc_42_chunk_3` and parsing that string gives
`(42, 3)` with a nil error. -/
theorem C1_chunk_id_roundtrip (documentID chunkIndex : Int)
    (hd : 0 ≤ documentID) (hdmax : documentID < 2 ^ 63)
    (hc : 0 ≤ chunkIndex) (hcmax : chunkIndex < 2 ^ 63) :
    ParseChunkID (GenerateChunkID documentID chunkIndex) = (documentID, chunkIndex, none) ∧
    GenerateChunkID 42 3 = "doc_42_chunk_3" ∧
    ParseChunkID "doc_42_chunk_3" = (42, 3, none) := by
  refine ⟨?_, by decide, by decide⟩
  apply ParseChunkID_GenerateChunkID
  · exact ⟨by norm_num; omega, hdmax⟩
  · exact ⟨by norm_num; omega, hcmax⟩

/-- C1 witness: the round trip at the largest Go `int` and at zero. -/
theorem C1_chunk_id_roundtrip_witness :
    ParseChunkID (GenerateChunkID 9223372036854775807 0) = (9223372036854775807, 0, none) ∧
    GenerateChunkID 42 3 = "doc_42_chunk_3" ∧
    ParseChunkID "doc_42_chunk_3" = (42, 3, none) :=
  C1_chunk_id_roundtrip 9223372036854775807 0 (by decide) (by decide) (by decide) (by decide)


theorem format_noon :
    noonEarly.Format = "20240101_120000" ∧ noonLate.Format = "20240101_120000" := by
  decide

theorem firstUpload_eq (sha256hex : Bytes → String) :
    firstUpload sha256hex =
      (.ok (uploadedRow sha256hex),
       { fsys := fun q => if q = noonPath then some [1, 2, 3] else none,
         db := ⟨[uploadedRow sha256hex], 1⟩ }) := by
  simp [firstUpload, StorageService.StoreDocument, FileStorage.SaveDocument, format_noon.1,
    emptyWorld, DocumentRepository.GetByContentHash, DocumentRepository.Insert,
    violatedUnique, createTables, Database.nextRowid, osRename, osRemove, FileSystem.write,
    DocumentStatusPending, uploadedRow, noonPath]
  funext q
  split_ifs <;> simp_all

theorem secondUpload_eq (sha256hex : Bytes → String) :
    secondUpload sha256hex =
      (.ok (uploadedRow sha256hex),
       { fsys := fun _ => none, db := ⟨[uploadedRow sha256hex], 1⟩ }) := by
  simp [secondUpload, firstUpload_eq, StorageService.StoreDocument, FileStorage.SaveDocument,
    format_noon.2, DocumentRepository.GetByContentHash, FileStorage.DeleteDocument,
    osRename, osRemove, FileSystem.write, uploadedRow, noonPath]
  funext q
  split_ifs <;> simp_all

/-- C2 (defect): `a.txt` with the same bytes is stored twice from the empty
world, the two calls reading the clock at different instants of the same
second. Both calls return the document with id 1 and the catalog holds
exactly that one row, but the second call renamed its blob onto the path
of the first and then removed it as redundant: no file at all is left on
disk, in particular none at the returned `FilePath`. -/
theorem C2_same_second_upload_loses_blob (sha256hex : Bytes → String) :
    noonEarly ≠ noonLate ∧
    (firstUpload sha256hex).1 = .ok (uploadedRow sha256hex) ∧
    (secondUpload sha256hex).1 = .ok (uploadedRow sha256hex) ∧
    (secondUpload sha256hex).2.db.rows = [uploadedRow sha256hex] ∧
    FileStorage.DocumentExists (secondUpload sha256hex).2.fsys
      (uploadedRow sha256hex).FilePath = false ∧
    ∀ p, (secondUpload sha256hex).2.fsys p = none := by
  rw [firstUpload_eq, secondUpload_eq]
  refine ⟨by decide, rfl, rfl, rfl, rfl, fun _ => rfl⟩

/-- C3 (defect): two successful `SaveDocument` calls for `a.txt` at two
different clock readings of the same second return the same final path,
and the second call replaces the bytes the first one stored there. -/
theorem C3_same_second_same_path (sha256hex : Bytes → String) :
    noonEarly ≠ noonLate ∧
    (firstSave sha256hex).1 = .ok (noonPath, sha256hex [1], 1) ∧
    (secondSave sha256hex).1 = .ok (noonPath, sha256hex [2], 1) ∧
    (firstSave sha256hex).2 noonPath = some [1] ∧
    (secondSave sha256hex).2 noonPath = some [2] := by
  simp [firstSave, secondSave, FileStorage.SaveDocument, format_noon.1, format_noon.2,
    osRename, osRemove, FileSystem.write, noonPath]
  decide

theorem foldr_max_ge (ids : List Int) (a : Int) :
    a ≤ ids.foldr max a ∧ ∀ x ∈ ids, x ≤ ids.foldr max a := by
  induction ids with
  | nil => simp
  | cons y ys ih =>
    refine ⟨le_trans ih.1 (le_max_right _ _), ?_⟩
    intro x hx
    rcases List.mem_cons.mp hx with h | h
    · subst h; exact le_max_left _ _
    · exact le_trans (ih.2 x h) (le_max_right _ _)

theorem nextRowid_fresh (db : Database) : ∀ r ∈ db.rows, r.ID < db.nextRowid := by
  intro r hr
  have h := (foldr_max_ge (db.rows.map (fun r => r.ID)) db.seq).2 r.ID
    (List.mem_map.mpr ⟨r, hr, rfl⟩)
  unfold Database.nextRowid
  omega

/-- The only uniqueness constraint an insert can violate on the table of
`createTables` is the one on `file_path`. -/
theorem violatedUnique_createTables (rows : List Document) (row : Document) :
    violatedUnique createTables rows row =
      if rows.any (fun r => r.FilePath = row.FilePath) then some "file_path" else none := by
  by_cases h : rows.any (fun r => r.FilePath = row.FilePath) = true
  · have h' := h
    simp only [List.any_eq_true, decide_eq_true_eq] at h'
    simp [violatedUnique, createTables, List.find?, Document.column, h, h']
  · have h' := h
    simp only [List.any_eq_true, decide_eq_true_eq, not_exists, not_and] at h'
    simp [violatedUnique, createTables, List.find?, Document.column, h]

/-- C4 (counterexample): the table holds a row with hash `h`; inserting a
document with another path and the same hash succeeds and leaves two rows
with that hash. -/
theorem C4_insert_same_hash_succeeds :
    (∃ r ∈ oneRowDb.rows, r.ContentHash = sameHashDoc.ContentHash) ∧
    (DocumentRepository.Insert oneRowDb sameHashDoc).1 = none ∧
    ((DocumentRepository.Insert oneRowDb sameHashDoc).2.2.rows.filter
      (fun r => r.ContentHash = "h")).length = 2 := by
  decide

/-- C4 (amended): on the table of `createTables`, `Insert` fails with a
uniqueness violation on `file_path` and leaves table and caller's struct
unchanged whenever a row with the same `file_path` exists; when no row has
that `file_path` it succeeds (whatever the content hashes are), appends
exactly one row, which carries the document's fields and a generated id
larger than every id in the table, and writes that id into the caller's
`doc.ID`. -/
theorem C4_insert_unique_path (db : Database) (doc : Document) :
    ((∃ r ∈ db.rows, r.FilePath = doc.FilePath) →
      DocumentRepository.Insert db doc =
        (some (.insertFailed (.uniqueConstraint "file_path")), doc, db)) ∧
    ((∀ r ∈ db.rows, r.FilePath ≠ doc.FilePath) →
      ∃ id : Int, (∀ r ∈ db.rows, r.ID < id) ∧
        DocumentRepository.Insert db doc =
          (none, { doc with ID := id },
           { rows := db.rows ++ [{ doc with ID := id, ProcessedAt := none }], seq := id })) := by
  constructor
  · rintro ⟨r, hr, hp⟩
    have h : db.rows.any (fun r => r.FilePath = doc.FilePath) = true := by
      simp only [List.any_eq_true, decide_eq_true_eq]
      exact ⟨r, hr, hp⟩
    simp [DocumentRepository.Insert, violatedUnique_createTables, h]
  · intro hne
    have h : db.rows.any (fun r => r.FilePath = doc.FilePath) = false := by
      simp only [List.any_eq_false, decide_eq_true_eq]
      exact hne
    refine ⟨db.nextRowid, nextRowid_fresh db, ?_⟩
    simp [DocumentRepository.Insert, violatedUnique_createTables, h]

/-- C4 witness: the path `/p1` is taken, the path `/p2` is free. -/
theorem C4_insert_unique_path_witness :
    DocumentRepository.Insert oneRowDb samePathDoc =
        (some (.insertFailed (.uniqueConstraint "file_path")), samePathDoc, oneRowDb) ∧
    ∃ id : Int, (∀ r ∈ oneRowDb.rows, r.ID < id) ∧
        DocumentRepository.Insert oneRowDb sameHashDoc =
          (none, { sameHashDoc with ID := id },
           { rows := oneRowDb.rows ++ [{ sameHashDoc with ID := id, ProcessedAt := none }],
             seq := id }) :=
  ⟨(C4_insert_unique_path oneRowDb samePathDoc).1 (by decide),
   (C4_insert_unique_path oneRowDb sameHashDoc).2 (by decide)⟩

/-! ### Inversion of the scanner -/

theorem advanceLit_inv (lit : List Char) : ∀ inp r, advanceLit lit inp = .ok r → inp = lit ++ r := by
  induction lit with
  | nil => intro inp r h; simpa [advanceLit] using h
  | cons f fs ih =>
    intro inp r h
    cases inp with
    | nil => simp [advanceLit] at h
    | cons c cs =>
      by_cases hfc : f = c
      · subst hfc
        simp only [advanceLit, if_true] at h
        rw [ih cs r h]; rfl
      · simp [advanceLit, hfc] at h

theorem skipSpace_inv (inp : List Char) : ∀ r, skipSpace inp = .ok r →
    ∃ ws, inp = ws ++ r ∧ ∀ x ∈ ws, isBlank x = true := by
  induction inp with
  | nil => intro r h; exact ⟨[], by simpa [skipSpace] using h, by simp⟩
  | cons c cs ih =>
    intro r h
    unfold skipSpace at h
    split_ifs at h with h1 h2 h3
    · obtain ⟨ws, hws, hsp⟩ := ih r h
      refine ⟨c :: ws, by simp [hws], ?_⟩
      intro x hx
      rcases List.mem_cons.mp hx with hx | hx
      · rw [hx, h1.1]; decide
      · exact hsp x hx
    · exact ⟨[], by simpa using h, by simp⟩
    · obtain ⟨ws, hws, hsp⟩ := ih r h
      refine ⟨c :: ws, by simp [hws], ?_⟩
      intro x hx
      rcases List.mem_cons.mp hx with hx | hx
      · rw [hx]
        have hsp' : isSpace c = true := by simpa using h3
        simp [isBlank, hsp', h2]
      · exact hsp x hx

theorem parseUintLoop_inv (cs : List Char) : ∀ n v, n < 2 ^ 64 → parseUintLoop n cs = .ok v →
    (∀ c ∈ cs, isDecDigit c = true) ∧ v = decVal n cs ∧ v < 2 ^ 64 := by
  induction cs with
  | nil =>
    intro n v hn h
    simp only [parseUintLoop, Except.ok.injEq] at h
    subst h
    exact ⟨by simp, by simp [decVal], hn⟩
  | cons c cs ih =>
    intro n v _ h
    unfold parseUintLoop at h
    dsimp only at h
    split_ifs at h with h1 h2 h3
    obtain ⟨hd, hv, hlt⟩ := ih _ v (by norm_num at h3 ⊢; omega) h
    refine ⟨?_, by simpa [decVal] using hv, hlt⟩
    intro x hx
    rcases List.mem_cons.mp hx with hx | hx
    · rw [hx]; simpa using h1
    · exact hd x hx

theorem ParseUint_inv (ds : List Char) (v : Nat) (h : ParseUint ds = .ok v) :
    ds ≠ [] ∧ (∀ c ∈ ds, isDecDigit c = true) ∧ v = decVal 0 ds ∧ v < 2 ^ 64 := by
  unfold ParseUint at h
  split_ifs at h with h0
  exact ⟨h0, parseUintLoop_inv ds 0 v (by norm_num) h⟩

theorem scanNumber_inv (buf inp tok rest : List Char)
    (h : scanNumber buf inp = .ok (tok, rest)) :
    ∃ ds, tok = buf ++ ds ∧ ds ≠ [] ∧ (∀ c ∈ ds, isDecDigit c = true) ∧ inp = ds ++ rest := by
  cases inp with
  | nil => simp [scanNumber] at h
  | cons d ds =>
    by_cases hd : isDecDigit d = true
    · simp only [scanNumber, hd, Bool.not_true, Bool.false_eq_true, if_false, Except.ok.injEq,
        Prod.mk.injEq] at h
      obtain ⟨ht, hr⟩ := h
      refine ⟨(d :: ds).takeWhile isDecDigit, ht.symm, ?_, ?_, ?_⟩
      · simp [List.takeWhile, hd]
      · intro c hc
        exact (List.mem_takeWhile_imp hc)
      · rw [← hr]; exact (List.takeWhile_append_dropWhile isDecDigit (d :: ds)).symm
    · simp [scanNumber, hd] at h

theorem ParseInt_plain (d0 : Char) (ds0 : List Char) (un : Nat) (n1 : d0 ≠ '+') (n2 : d0 ≠ '-')
    (hp : ParseUint (d0 :: ds0) = .ok un) :
    ParseInt (d0 :: ds0) = if 2 ^ 63 ≤ un then .error .rangeErr else .ok (un : Int) := by
  by_cases hb : 2 ^ 63 ≤ un <;> simp [ParseInt, n1, n2, hp, hb]

theorem ParseInt_plus (ds : List Char) (un : Nat) (hp : ParseUint ds = .ok un) :
    ParseInt ('+' :: ds) = if 2 ^ 63 ≤ un then .error .rangeErr else .ok (un : Int) := by
  have hpm : ¬ ('+' : Char) = '-' := by decide
  by_cases hb : 2 ^ 63 ≤ un <;> simp [ParseInt, hpm, hp, hb]

theorem ParseInt_minus (ds : List Char) (un : Nat) (hp : ParseUint ds = .ok un) :
    ParseInt ('-' :: ds) = if 2 ^ 63 < un then .error .rangeErr else .ok (-(un : Int)) := by
  by_cases hb : 2 ^ 63 < un <;> simp [ParseInt, hp, hb]

theorem ParseInt_error (c : Char) (cs : List Char) (e : ScanError)
    (hp : ParseUint (if c = '+' ∨ c = '-' then cs else c :: cs) = .error e) :
    ParseInt (c :: cs) = .error e := by
  simp only [ParseInt, hp]

/-- A token made of an optional sign and digits that `ParseInt` accepts
denotes the returned value, which fits the Go `int`. -/
theorem ParseInt_inv (sgn ds : List Char) (v : Int)
    (hs : sgn = [] ∨ sgn = ['+'] ∨ sgn = ['-']) (hne : ds ≠ [])
    (hd : ∀ c ∈ ds, isDecDigit c = true) (h : ParseInt (sgn ++ ds) = .ok v) :
    IsIntToken (sgn ++ ds) v := by
  obtain ⟨d0, ds0, hds⟩ := List.exists_cons_of_ne_nil hne
  have hd0 : isDecDigit d0 = true := hd d0 (by simp [hds])
  obtain ⟨-, -, n1, n2⟩ := digit_not_sign d0 hd0
  refine ⟨sgn, ds, rfl, hs, hne, hd, ?_⟩
  have hpm : ¬ (['+'] : List Char) = ['-'] := by decide
  have hnm : ¬ ([] : List Char) = ['-'] := by decide
  rcases hs with hs | hs | hs
  · subst hs
    rw [List.nil_append] at h
    cases hp : ParseUint ds with
    | error e =>
      rw [hds] at hp h
      rw [ParseInt_error d0 ds0 e (by simpa [n1, n2] using hp)] at h
      cases h
    | ok un =>
      obtain ⟨-, -, hv, -⟩ := ParseUint_inv ds un hp
      rw [hds] at hp h
      rw [ParseInt_plain d0 ds0 un n1 n2 hp] at h
      rw [← hds] at hp
      split_ifs at h with hb
      simp only [Except.ok.injEq] at h
      subst h
      refine ⟨by simp [hv, hnm], ?_⟩
      unfold IsGoInt
      norm_num at hb ⊢
      omega
  · subst hs
    rw [List.singleton_append] at h
    cases hp : ParseUint ds with
    | error e =>
      rw [ParseInt_error '+' ds e (by simpa using hp)] at h
      cases h
    | ok un =>
      obtain ⟨-, -, hv, -⟩ := ParseUint_inv ds un hp
      rw [ParseInt_plus ds un hp] at h
      split_ifs at h with hb
      simp only [Except.ok.injEq] at h
      subst h
      refine ⟨by simp [hv, hpm], ?_⟩
      unfold IsGoInt
      norm_num at hb ⊢
      omega
  · subst hs
    rw [List.singleton_append] at h
    cases hp : ParseUint ds with
    | error e =>
      rw [ParseInt_error '-' ds e (by simpa using hp)] at h
      cases h
    | ok un =>
      obtain ⟨-, -, hv, -⟩ := ParseUint_inv ds un hp
      rw [ParseInt_minus ds un hp] at h
      split_ifs at h with hb
      simp only [Except.ok.injEq] at h
      subst h
      refine ⟨by simp [hv], ?_⟩
      unfold IsGoInt
      norm_num at hb ⊢
      omega

theorem scanInt_inv (inp rest : List Char) (v : Int) (h : scanInt inp = .ok (v, rest)) :
    ∃ ws tok, inp = ws ++ tok ++ rest ∧ (∀ x ∈ ws, isBlank x = true) ∧ IsIntToken tok v := by
  unfold scanInt at h
  cases hsk : skipSpace inp with
  | error e => simp [hsk] at h
  | ok l =>
    obtain ⟨ws, hws, hsp⟩ := skipSpace_inv inp l hsk
    cases l with
    | nil => simp [hsk] at h
    | cons c cs =>
      simp only [hsk] at h
      cases hsn : scanNumber (if isSign c = true then [c] else [])
          (if isSign c = true then cs else c :: cs) with
      | error e => simp [hsn] at h
      | ok p =>
        obtain ⟨tok, r⟩ := p
        simp only [hsn] at h
        cases hpi : ParseInt tok with
        | error e => simp [hpi] at h
        | ok v' =>
          simp only [hpi, Except.ok.injEq, Prod.mk.injEq] at h
          obtain ⟨hv, hr⟩ := h
          subst hv hr
          by_cases hsg : isSign c = true
          · rw [if_pos hsg, if_pos hsg] at hsn
            obtain ⟨ds, htok, hne, hdig, hinp⟩ := scanNumber_inv _ _ _ _ hsn
            have hc : c = '+' ∨ c = '-' := by
              simpa [isSign] using hsg
            have hs : [c] = [] ∨ [c] = ['+'] ∨ [c] = ['-'] := by
              rcases hc with hc | hc
              · exact Or.inr (Or.inl (by rw [hc]))
              · exact Or.inr (Or.inr (by rw [hc]))
            rw [htok] at hpi
            refine ⟨ws, tok, ?_, hsp, ?_⟩
            · rw [hws, hinp, htok]; simp
            · rw [htok]; exact ParseInt_inv [c] ds v' hs hne hdig hpi
          · rw [if_neg hsg, if_neg hsg] at hsn
            obtain ⟨ds, htok, hne, hdig, hinp⟩ := scanNumber_inv _ _ _ _ hsn
            rw [htok] at hpi
            refine ⟨ws, tok, ?_, hsp, ?_⟩
            · rw [hws, hinp, htok]; simp
            · rw [htok]; exact ParseInt_inv [] ds v' (Or.inl rfl) hne hdig hpi

/-- Whatever `Sscanf` accepts for the format `doc_%d_chunk_%d` has the
lenient shape, and the two tokens denote the scanned integers. -/
theorem sscanfDocChunk_inv (inp : List Char) (d c : Int)
    (h : sscanfDocChunk inp = .ok (d, c)) : LenientChunkID inp d c := by
  have hl1 : "doc_".toList = ['d', 'o', 'c', '_'] := by decide
  have hl2 : "_chunk_".toList = ['_', 'c', 'h', 'u', 'n', 'k', '_'] := by decide
  unfold sscanfDocChunk at h
  unfold LenientChunkID
  simp only [hl1, hl2] at h ⊢
  cases h1 : advanceLit ['d', 'o', 'c', '_'] inp with
  | error e => simp [h1] at h
  | ok i1 =>
    simp only [h1] at h
    cases h2 : skipSpace i1 with
    | error e => simp [h2] at h
    | ok i2 =>
      simp only [h2] at h
      cases h3 : scanInt i2 with
      | error e => simp [h3] at h
      | ok p3 =>
        obtain ⟨d', i3⟩ := p3
        simp only [h3] at h
        cases h4 : advanceLit ['_', 'c', 'h', 'u', 'n', 'k', '_'] i3 with
        | error e => simp [h4] at h
        | ok i4 =>
          simp only [h4] at h
          cases h5 : skipSpace i4 with
          | error e => simp [h5] at h
          | ok i5 =>
            simp only [h5] at h
            cases h6 : scanInt i5 with
            | error e => simp [h6] at h
            | ok p6 =>
              obtain ⟨c', rest⟩ := p6
              simp only [h6, Except.ok.injEq, Prod.mk.injEq] at h
              obtain ⟨hd, hc⟩ := h
              subst hd hc
              have e1 := advanceLit_inv _ _ _ h1
              obtain ⟨wa, ea, ha⟩ := skipSpace_inv _ _ h2
              obtain ⟨wb, tok1, eb, hb, ht1⟩ := scanInt_inv _ _ _ h3
              have e4 := advanceLit_inv _ _ _ h4
              obtain ⟨wc, ec, hc⟩ := skipSpace_inv _ _ h5
              obtain ⟨wd, tok2, ed, hd, ht2⟩ := scanInt_inv _ _ _ h6
              refine ⟨wa ++ wb, tok1, wc ++ wd, tok2, rest, ?_, ?_, ht1, ?_, ht2⟩
              · rw [e1, ea, eb, e4, ec, ed]; simp only [List.append_assoc]
              · intro x hx
                rcases List.mem_append.mp hx with hx | hx
                · exact ha x hx
                · exact hb x hx
              · intro x hx
                rcases List.mem_append.mp hx with hx | hx
                · exact hc x hx
                · exact hd x hx

/-- Every token ends in a digit: the rendering of an integer. -/
theorem fmtInt_last (x : Int) : ∃ pre n, n < 10 ∧ fmtInt x = pre ++ [digitChar n] := by
  have hu : ∀ u : Nat, ∃ pre n, n < 10 ∧ fmtUint u = pre ++ [digitChar n] := by
    intro u
    rw [fmtUint_unfold]
    by_cases h : u < 10
    · exact ⟨[], u, h, by simp [h]⟩
    · exact ⟨fmtUint (u / 10), u % 10, by omega, by simp [h]⟩
  obtain ⟨pre, n, hn, hp⟩ := hu x.natAbs
  by_cases hneg : x < 0
  · exact ⟨'-' :: pre, n, hn, by simp [fmtInt, hneg, hp]⟩
  · exact ⟨pre, n, hn, by simp [fmtInt, hneg, hp]⟩

/-- The last rune of a generated identifier is a decimal digit. -/
theorem GenerateChunkID_last (d c : Int) :
    ∃ x, (GenerateChunkID d c).toList.getLast? = some x ∧ isDecDigit x = true := by
  obtain ⟨pre, n, hn, hp⟩ := fmtInt_last c
  refine ⟨digitChar n, ?_, (digitChar_props n hn).1⟩
  have e : sprintfDocChunk d c =
      ("doc_".toList ++ fmtInt d ++ "_chunk_".toList ++ pre) ++ [digitChar n] := by
    simp [sprintfDocChunk, hp]
  simp only [GenerateChunkID, e]
  exact List.getLast?_concat _

/-- C5 (counterexample): `doc_42_chunk_3x` is not the identifier of any
pair of integers, yet `ParseChunkID` accepts it as `(42, 3)` with a nil
error. -/
theorem C5_trailing_garbage_accepted :
    (∀ d c : Int, GenerateChunkID d c ≠ "doc_42_chunk_3x") ∧
    ParseChunkID "doc_42_chunk_3x" = (42, 3, none) := by
  refine ⟨?_, by decide⟩
  intro d c h
  obtain ⟨x, hx, hdig⟩ := GenerateChunkID_last d c
  rw [h] at hx
  have : x = 'x' := by
    have h2 : ("doc_42_chunk_3x" : String).toList.getLast? = some 'x' := by decide
    rw [h2] at hx
    exact (Option.some.inj hx).symm
  subst this
  revert hdig
  decide

/-- C5 (amended): every string that does not start with `doc_`, optional
blanks (white space other than a newline), an optionally signed non-empty
run of decimal digits within the 64-bit range, `_chunk_`, optional blanks
and a second such integer (any text may follow) makes `ParseChunkID`
return a parse error together with `(0, 0)`. -/
theorem C5_parse_error_on_malformed (s : String)
    (h : ¬ ∃ d c, LenientChunkID s.toList d c) :
    ∃ e, ParseChunkID s = (0, 0, some e) := by
  unfold ParseChunkID
  cases hs : sscanfDocChunk s.toList with
  | error e => exact ⟨⟨e⟩, rfl⟩
  | ok p =>
    obtain ⟨d, c⟩ := p
    exact absurd ⟨d, c, sscanfDocChunk_inv _ d c hs⟩ h

/-- C5 witness: the string `chunk_3` does not start with `doc_`. -/
theorem C5_parse_error_on_malformed_witness :
    ∃ e, ParseChunkID "chunk_3" = (0, 0, some e) :=
  C5_parse_error_on_malformed "chunk_3" (by
    rintro ⟨d, c, ws1, tok1, ws2, tok2, rest, h, -⟩
    simp [String.toList] at h)

theorem buildChunks_length (documentID : Int) (metadata : GoMap String) (chunks : List String) :
    (buildChunks documentID metadata chunks).length = chunks.length := by
  simp [buildChunks]

/-- With equal lengths `StoreDocumentChunks` sends exactly the request
built from its chunks and reports what the backend answers. -/
theorem StoreDocumentChunks_eq {E : Type} (coll : Collection E) (documentID : Int)
    (chunks : List String) (embeddings : List E) (metadata : GoMap String)
    (h : chunks.length = embeddings.length) :
    VectorService.StoreDocumentChunks coll documentID chunks embeddings metadata =
      ((coll.add (addRequestOf (buildChunks documentID metadata chunks) embeddings)).map
          VectorError.addFailed,
       [addRequestOf (buildChunks documentID metadata chunks) embeddings]) := by
  simp only [VectorService.StoreDocumentChunks, VectorStore.AddChunks, h, ne_eq,
    not_true_eq_false, if_false, buildChunks_length]
  cases coll.add (addRequestOf (buildChunks documentID metadata chunks) embeddings) <;> rfl

/-- C6: whenever the numbers of chunks and embeddings differ,
`StoreDocumentChunks` returns the length-mismatch error and sends nothing
to the backend; when they are equal exactly one add request is sent and
the call returns either nil or the error the backend gave to that request. -/
theorem C6_length_mismatch_guard {E : Type} (coll : Collection E) (documentID : Int)
    (chunks : List String) (embeddings : List E) (metadata : GoMap String) :
    (chunks.length ≠ embeddings.length →
      VectorService.StoreDocumentChunks coll documentID chunks embeddings metadata =
        (some .serviceLengthMismatch, [])) ∧
    (chunks.length = embeddings.length →
      ∃ req, (VectorService.StoreDocumentChunks coll documentID chunks embeddings metadata).2
          = [req] ∧
        ((coll.add req = none ∧
          (VectorService.StoreDocumentChunks coll documentID chunks embeddings metadata).1
            = none) ∨
         ∃ e, coll.add req = some e ∧
          (VectorService.StoreDocumentChunks coll documentID chunks embeddings metadata).1
            = some (.addFailed e))) := by
  constructor
  · intro h
    simp [VectorService.StoreDocumentChunks, h]
  · intro h
    rw [StoreDocumentChunks_eq coll documentID chunks embeddings metadata h]
    refine ⟨_, rfl, ?_⟩
    cases hadd : coll.add (addRequestOf (buildChunks documentID metadata chunks) embeddings) with
    | none => exact Or.inl ⟨rfl, rfl⟩
    | some e => exact Or.inr ⟨e, rfl, rfl⟩

/-- C6 witness: two chunks with one embedding are refused without a
backend write; one chunk with one embedding is sent. -/
theorem C6_length_mismatch_guard_witness :
    VectorService.StoreDocumentChunks okCollection 5 ["a", "b"] [[1 / 10]] GoMap.empty =
        (some .serviceLengthMismatch, []) ∧
    ∃ req, (VectorService.StoreDocumentChunks okCollection 5 ["a"] [[1 / 10]] GoMap.empty).2
          = [req] ∧
        ((okCollection.add req = none ∧
          (VectorService.StoreDocumentChunks okCollection 5 ["a"] [[1 / 10]] GoMap.empty).1
            = none) ∨
         ∃ e, okCollection.add req = some e ∧
          (VectorService.StoreDocumentChunks okCollection 5 ["a"] [[1 / 10]] GoMap.empty).1
            = some (.addFailed e)) :=
  ⟨(C6_length_mismatch_guard okCollection 5 ["a", "b"] [[1 / 10]] GoMap.empty).1 (by decide),
   (C6_length_mismatch_guard okCollection 5 ["a"] [[1 / 10]] GoMap.empty).2 (by decide)⟩

/-- C7 (defect): a chunk of document 7 whose caller metadata contains the
key `document_id` with value `999` is sent to the backend with
`document_id = 999`, not with the decimal string of its `DocumentID`. -/
theorem C7_caller_key_overrides_injected :
    Itoa clobberChunk.DocumentID = "7" ∧
    chunkMetadata clobberChunk "document_id" = some (.str "999") ∧
    ∃ req, (VectorStore.AddChunks okCollection [clobberChunk] [[1 / 10]]).2 = [req] ∧
      (req.metadatas.map (fun m => m "document_id")) = [some (.str "999")] := by
  refine ⟨by decide, by decide, ?_⟩
  refine ⟨_, rfl, ?_⟩
  decide

/-! ### Vector index: store, then search -/

theorem atoiLoop_digits (cs : List Char) : ∀ n : Nat, (∀ c ∈ cs, isDecDigit c = true) →
    atoiLoop (n : Int) cs = .ok ((decVal n cs : Nat) : Int) := by
  induction cs with
  | nil => intro n _; simp [atoiLoop, decVal]
  | cons c cs ih =>
    intro n hd
    have hc : isDecDigit c = true := hd c (by simp)
    have h := ih (n * 10 + digitVal c) (fun x hx => hd x (by simp [hx]))
    simp only [atoiLoop, hc, Bool.not_true, Bool.false_eq_true, if_false]
    push_cast at h
    simpa [decVal] using h

theorem atoiFast_fmtInt (x : Int) : atoiFast (fmtInt x) = .ok x := by
  obtain ⟨d, ds, hds⟩ := List.exists_cons_of_ne_nil (fmtUint_ne_nil x.natAbs)
  have hdig := fmtUint_digits x.natAbs
  have hloop := atoiLoop_digits (fmtUint x.natAbs) 0 hdig
  rw [decVal_fmtUint] at hloop
  simp only [Nat.cast_zero] at hloop
  by_cases hneg : x < 0
  · have hval : -(x.natAbs : Int) = x := by omega
    simp only [fmtInt, hneg, if_true, atoiFast, true_or, fmtUint_ne_nil, if_false, hloop, hval]
  · have hd : isDecDigit d = true := hdig d (by simp [hds])
    obtain ⟨-, -, n1, n2⟩ := digit_not_sign d hd
    have hval : (x.natAbs : Int) = x := by omega
    rw [hds] at hloop
    simp [fmtInt, hneg, hds, atoiFast, n1, n2, hloop, hval]

/-- Go `strconv.Atoi(strconv.Itoa(x))` is `x` for every Go `int`. -/
theorem Atoi_Itoa (x : Int) (hx : IsGoInt x) : Atoi (Itoa x) = .ok x := by
  unfold Atoi Itoa
  split_ifs
  · exact atoiFast_fmtInt x
  · exact ParseInt_fmtInt x hx

/-- The two injected keys are read back as the chunk's integers when the
caller's metadata does not use them. -/
theorem metaInt_chunkMetadata (chunk : DocumentChunk)
    (hd : IsGoInt chunk.DocumentID) (hc : IsGoInt chunk.ChunkIndex)
    (hk1 : chunk.Metadata "document_id" = none) (hk2 : chunk.Metadata "chunk_index" = none) :
    metaInt (chunkMetadata chunk) "document_id" = chunk.DocumentID ∧
    metaInt (chunkMetadata chunk) "chunk_index" = chunk.ChunkIndex := by
  simp [metaInt, chunkMetadata, GoMap.copyInto, GoMap.set, hk1, hk2, Atoi_Itoa _ hd,
    Atoi_Itoa _ hc]

/-- Stripping the injected keys from what `AddChunks` sends leaves the
caller's metadata when it does not use the two keys. -/
theorem residualMetadata_chunkMetadata (chunk : DocumentChunk)
    (hk1 : chunk.Metadata "document_id" = none) (hk2 : chunk.Metadata "chunk_index" = none) :
    residualMetadata (chunkMetadata chunk) = chunk.Metadata := by
  funext k
  by_cases h1 : k = "document_id"
  · simp [residualMetadata, h1, hk1]
  · by_cases h2 : k = "chunk_index"
    · simp [residualMetadata, h2, hk2]
    · cases hm : chunk.Metadata k <;>
        simp [residualMetadata, chunkMetadata, GoMap.copyInto, GoMap.set, GoMap.empty, h1, h2, hm]

theorem buildChunks_getElem? (documentID : Int) (metadata : GoMap String)
    (chunks : List String) (i : Nat) :
    (buildChunks documentID metadata chunks)[i]? =
      chunks[i]?.map (fun c => buildChunk documentID metadata i c) := by
  simp [buildChunks, List.getElem?_enum]
  cases chunks[i]? <;> simp

/-- One pass of the loop body succeeds as soon as the id row reaches the
index. -/
theorem searchResultAt_ok (results : QueryResults) (idRow : List String) (i : Nat)
    (hids : results.Ids.head? = some idRow) (hi : i < idRow.length) :
    searchResultAt results i = .ok (searchResultFields results i (idRow.get ⟨i, hi⟩)) := by
  have hget : idRow.get? i = some (idRow.get ⟨i, hi⟩) := List.get?_eq_get hi
  simp only [searchResultAt, hids, hget]

/-- The loop returns one result per index, in index order, when the id row
is long enough. -/
theorem searchLoop_ok (results : QueryResults) (idRow : List String)
    (hids : results.Ids.head? = some idRow) :
    ∀ n, n ≤ idRow.length →
      ∃ out, searchLoop results n = .ok out ∧ out.length = n ∧
        ∀ i, i < n → ∃ r, out[i]? = some r ∧ searchResultAt results i = .ok r := by
  intro n
  induction n with
  | zero => intro _; exact ⟨[], rfl, rfl, fun i hi => absurd hi (Nat.not_lt_zero i)⟩
  | succ n ih =>
    intro hn
    obtain ⟨acc, hacc, hlen, hall⟩ := ih (by omega)
    have hr := searchResultAt_ok results idRow n hids (by omega)
    generalize searchResultFields results n _ = r at hr
    refine ⟨acc ++ [r], by simp only [searchLoop, hacc, hr], by simp [hlen], ?_⟩
    intro i hi
    by_cases hin : i < n
    · obtain ⟨r', hr', hs'⟩ := hall i hin
      refine ⟨r', ?_, hs'⟩
      rw [List.getElem?_append_left (by omega)]
      exact hr'
    · have : i = n := by omega
      subst this
      refine ⟨r, ?_, hr⟩
      rw [List.getElem?_append_right (by omega)]
      simp [hlen]

theorem head?_some_length {α : Type} (l : List α) (a : α) (h : l.head? = some a) :
    l.length > 0 ∧ ∀ d, l.head?.getD d = a := by
  cases l with
  | nil => simp at h
  | cons x xs => simp at h; simp [h]

/-- C8: a document's chunks are stored with caller metadata that does not
use the keys `document_id` and `chunk_index`; the backend later returns,
for hit `j`, exactly the metadata map that was sent for chunk `i`. Then
`SearchSimilar` returns a list whose entry `j` has `DocumentID` equal to
the stored document id, `ChunkIndex` equal to `i` and `Metadata` equal to
the caller's map. (The id row of the answer is as long as its document
row, so that the call does not panic.) -/
theorem C8_store_then_search {E : Type} (coll : Collection E) (documentID : Int)
    (chunks : List String) (embeddings : List E) (metadata : GoMap String)
    (req : AddRequest E) (sent : GoMap MetaValue) (i : Nat)
    (queryEmbedding : E) (limit : Int) (results : QueryResults)
    (docRow idRow : List String) (metaRow : List (GoMap MetaValue)) (j : Nat)
    (hd : IsGoInt documentID) (hi : IsGoInt i)
    (hk1 : metadata "document_id" = none) (hk2 : metadata "chunk_index" = none)
    (hreq : (VectorService.StoreDocumentChunks coll documentID chunks embeddings metadata).2
      = [req])
    (hsent : req.metadatas[i]? = some sent)
    (hq : coll.query queryEmbedding (toInt32 limit) = .ok results)
    (hdocs : results.Documents.head? = some docRow)
    (hids : results.Ids.head? = some idRow)
    (hmetas : results.Metadatas.head? = some metaRow)
    (hlen : docRow.length ≤ idRow.length) (hj : j < docRow.length)
    (hback : metaRow[j]? = some sent) :
    ∃ out r, VectorStore.SearchSimilar coll queryEmbedding limit = .ok out ∧
      out[j]? = some r ∧ r.DocumentID = documentID ∧ r.ChunkIndex = i ∧
      r.Metadata = some metadata := by
  -- what was sent for chunk `i`
  have hl : chunks.length = embeddings.length := by
    by_contra hne
    simp [VectorService.StoreDocumentChunks, hne] at hreq
  rw [StoreDocumentChunks_eq coll documentID chunks embeddings metadata hl] at hreq
  simp only [List.cons.injEq, and_true] at hreq
  subst hreq
  simp only [addRequestOf, List.getElem?_map, buildChunks_getElem?, Option.map_map] at hsent
  obtain ⟨c, -, hc⟩ := Option.map_eq_some'.mp hsent
  simp only [Function.comp] at hc
  have hmd : (buildChunk documentID metadata i c).Metadata = metadata := by
    funext k
    simp only [buildChunk, GoMap.copyInto, GoMap.empty]
    cases metadata k <;> rfl
  have hints := metaInt_chunkMetadata (buildChunk documentID metadata i c) hd hi
    (by rw [hmd]; exact hk1) (by rw [hmd]; exact hk2)
  have hres := residualMetadata_chunkMetadata (buildChunk documentID metadata i c)
    (by rw [hmd]; exact hk1) (by rw [hmd]; exact hk2)
  rw [hc] at hints hres
  rw [hmd] at hres
  -- the search
  obtain ⟨hdl, hdg⟩ := head?_some_length _ _ hdocs
  obtain ⟨hml, hmg⟩ := head?_some_length _ _ hmetas
  obtain ⟨out, hout, -, hall⟩ := searchLoop_ok results idRow hids docRow.length hlen
  obtain ⟨r, hr, hrat⟩ := hall j hj
  rw [searchResultAt_ok results idRow j hids (by omega)] at hrat
  have hjm : j < metaRow.length := by
    by_contra hge
    rw [List.getElem?_eq_none (by omega)] at hback
    cases hback
  have hgetD : metaRow.getD j GoMap.empty = sent := by
    simp [hback]
  refine ⟨out, r, ?_, hr, ?_, ?_, ?_⟩
  · have h0 : ¬ (results.Documents.length = 0 ∨ docRow.length = 0) := by omega
    simp only [VectorStore.SearchSimilar, hq, hdg, h0, if_false, hout]
  · injection hrat with hrat
    rw [← hrat]
    simp only [searchResultFields, hmg, hml, hjm, and_self, if_true, hgetD, hints.1]
    rfl
  · injection hrat with hrat
    rw [← hrat]
    simp only [searchResultFields, hmg, hml, hjm, and_self, if_true, hgetD, hints.2]
    rfl
  · injection hrat with hrat
    rw [← hrat]
    simp only [searchResultFields, hmg, hml, hjm, and_self, if_true, hgetD, hres]

/-- C8 witness: the service test's document 999 with two chunks; the
backend returns the second chunk as its only hit. -/
theorem C8_store_then_search_witness :
    ∃ out r, VectorStore.SearchSimilar echoCollection [1 / 5, 3 / 10] 5 = .ok out ∧
      out[0]? = some r ∧ r.DocumentID = 999 ∧ r.ChunkIndex = ((1 : Nat) : Int) ∧
      r.Metadata = some testMetadata :=
  C8_store_then_search echoCollection 999 ["first", "second"] [[1 / 10], [2 / 5]] testMetadata
    (addRequestOf (buildChunks 999 testMetadata ["first", "second"]) [[1 / 10], [2 / 5]])
    (chunkMetadata (buildChunk 999 testMetadata 1 "second")) 1
    [1 / 5, 3 / 10] 5 echoResults ["second"] ["doc_999_chunk_1"]
    [chunkMetadata (buildChunk 999 testMetadata 1 "second")] 0
    (by decide) (by decide) (by decide) (by decide) rfl rfl rfl rfl rfl rfl
    (by decide) (by decide) rfl

/-! ### Document store -/

theorem osRemove_absent (fsys : FileSystem) (path : String) :
    (osRemove fsys path).2 path = none := by
  unfold osRemove
  cases h : fsys path <;> simp [h]

theorem Insert_error_unchanged (db : Database) (doc : Document) (e : RepoError)
    (h : (DocumentRepository.Insert db doc).1 = some e) :
    DocumentRepository.Insert db doc = (some e, doc, db) := by
  unfold DocumentRepository.Insert at h ⊢
  cases hv : violatedUnique createTables db.rows
      { doc with ID := db.nextRowid, ProcessedAt := none } with
  | none => simp [hv] at h
  | some col =>
    simp only [hv] at h ⊢
    simp only [Option.some.injEq] at h
    rw [h]

theorem GetByContentHash_notFound (db : Database) (hash : String)
    (h : ∀ r ∈ db.rows, r.ContentHash ≠ hash) :
    DocumentRepository.GetByContentHash db hash = .error .notFound := by
  have hf : db.rows.find? (fun r => decide (r.ContentHash = hash)) = none := by
    rw [List.find?_eq_none]
    intro r hr
    simpa using h r hr
  simp [DocumentRepository.GetByContentHash, hf]

/-- C9: if `SaveDocument` succeeds, no catalog row has the computed hash
and the catalog `Insert` fails, then `StoreDocument` returns the insert
error, leaves the catalog as it was, and afterwards `DocumentExists` is
false for the path at which the blob was written. -/
theorem C9_insert_failure_removes_blob (sha256hex : Bytes → String) (s : FileStorage)
    (w : World) (io : WriteOutcome) (rnd : String) (tSave tUpload : Time)
    (fileName : String) (content : Bytes)
    (path hash : String) (size : Int) (fs1 : FileSystem) (e : RepoError)
    (hsave : s.SaveDocument sha256hex w.fsys io rnd tSave fileName content =
      (.ok (path, hash, size), fs1))
    (hnohash : ∀ r ∈ w.db.rows, r.ContentHash ≠ hash)
    (hins : (DocumentRepository.Insert w.db
      ⟨0, fileName, path, size, hash, tUpload, none, DocumentStatusPending⟩).1 = some e) :
    (StorageService.StoreDocument sha256hex s w io rnd tSave tUpload fileName content).1
      = .error (.repo e) ∧
    (StorageService.StoreDocument sha256hex s w io rnd tSave tUpload fileName content).2.db
      = w.db ∧
    FileStorage.DocumentExists
      (StorageService.StoreDocument sha256hex s w io rnd tSave tUpload fileName content).2.fsys
      path = false := by
  have hi := Insert_error_unchanged _ _ e hins
  simp only [StorageService.StoreDocument, hsave, GetByContentHash_notFound w.db hash hnohash,
    hi, FileStorage.DeleteDocument, FileStorage.DocumentExists, osRemove_absent]
  simp

/-- C9 witness: the catalog already holds a row for the path that the new
upload (other bytes, same name, same second) is written to. -/
theorem C9_insert_failure_removes_blob_witness :
    (StorageService.StoreDocument lengthDigest ⟨"/data"⟩ storedWorld .succeeds "7" noonLate
        noonLate "a.txt" [9]).1
      = .error (.repo (.insertFailed (.uniqueConstraint "file_path"))) ∧
    (StorageService.StoreDocument lengthDigest ⟨"/data"⟩ storedWorld .succeeds "7" noonLate
        noonLate "a.txt" [9]).2.db = storedWorld.db ∧
    FileStorage.DocumentExists
      (StorageService.StoreDocument lengthDigest ⟨"/data"⟩ storedWorld .succeeds "7" noonLate
        noonLate "a.txt" [9]).2.fsys noonPath = false :=
  C9_insert_failure_removes_blob lengthDigest ⟨"/data"⟩ storedWorld .succeeds "7" noonLate
    noonLate "a.txt" [9] noonPath (lengthDigest [9]) 1
    (FileStorage.SaveDocument lengthDigest ⟨"/data"⟩ storedWorld.fsys .succeeds "7" noonLate
      "a.txt" [9]).2
    (.insertFailed (.uniqueConstraint "file_path"))
    (by
      refine Prod.ext ?_ rfl
      simp only [FileStorage.SaveDocument, format_noon.2, noonPath]
      rfl)
    (by decide) (by decide)

/-- C10: when `DeleteDocument id` returns without error for a document
that `GetDocument id` returned, then afterwards `GetDocument id` fails with
the not-found error, the document's `FilePath` is absent from disk, the
catalog has lost no row with another id and has gained none. -/
theorem C10_delete_cascade (w : World) (id : Int) (doc : Document)
    (hdoc : StorageService.GetDocument w id = .ok doc)
    (hdel : (StorageService.DeleteDocument w id).1 = none) :
    StorageService.GetDocument (StorageService.DeleteDocument w id).2 id
      = .error .notFound ∧
    FileStorage.DocumentExists (StorageService.DeleteDocument w id).2.fsys doc.FilePath
      = false ∧
    (StorageService.DeleteDocument w id).2.db.rows
      = w.db.rows.filter (fun r => r.ID ≠ id) ∧
    (∀ r ∈ w.db.rows, r.ID ≠ id → r ∈ (StorageService.DeleteDocument w id).2.db.rows) := by
  unfold StorageService.GetDocument at hdoc
  have hrows : (StorageService.DeleteDocument w id).2.db.rows
      = w.db.rows.filter (fun r => r.ID ≠ id) ∧
      (StorageService.DeleteDocument w id).2.fsys doc.FilePath = none := by
    unfold StorageService.DeleteDocument at hdel ⊢
    simp only [hdoc, FileStorage.DeleteDocument] at hdel ⊢
    cases hrm : (osRemove w.fsys doc.FilePath).1 with
    | some e =>
      have : osRemove w.fsys doc.FilePath = (some e, (osRemove w.fsys doc.FilePath).2) :=
        Prod.ext hrm rfl
      rw [this] at hdel
      simp at hdel
    | none =>
      have : osRemove w.fsys doc.FilePath = (none, (osRemove w.fsys doc.FilePath).2) :=
        Prod.ext hrm rfl
      rw [this]
      simp only [DocumentRepository.Delete]
      exact ⟨trivial, osRemove_absent _ _⟩
  obtain ⟨hr, hf⟩ := hrows
  refine ⟨?_, by simp [FileStorage.DocumentExists, hf], hr, ?_⟩
  · have hnone : ((StorageService.DeleteDocument w id).2.db.rows.find?
        (fun r => decide (r.ID = id))) = none := by
      rw [hr, List.find?_eq_none]
      intro r hr'
      have := (List.mem_filter.mp hr').2
      simpa using this
    simp [StorageService.GetDocument, DocumentRepository.GetByID, hnone]
  · intro r hr' hne
    rw [hr]
    exact List.mem_filter.mpr ⟨hr', by simpa using hne⟩

/-- C10 witness: the stored document 1 is deleted from `storedWorld`. -/
theorem C10_delete_cascade_witness :
    StorageService.GetDocument (StorageService.DeleteDocument storedWorld 1).2 1
      = .error .notFound ∧
    FileStorage.DocumentExists (StorageService.DeleteDocument storedWorld 1).2.fsys
      (uploadedRow lengthDigest).FilePath = false ∧
    (StorageService.DeleteDocument storedWorld 1).2.db.rows
      = storedWorld.db.rows.filter (fun r => r.ID ≠ 1) ∧
    (∀ r ∈ storedWorld.db.rows, r.ID ≠ 1 →
      r ∈ (StorageService.DeleteDocument storedWorld 1).2.db.rows) :=
  C10_delete_cascade storedWorld 1 (uploadedRow lengthDigest) rfl (by decide)

/-- C11: when the removal of the blob inside `DeleteDocument id` fails for
a document that `GetDocument id` returned, `DeleteDocument` returns that
error, the catalog `Delete` is not reached, catalog and files are as
before, and `GetDocument id` still returns the same row. -/
theorem C11_blob_failure_keeps_row (w : World) (id : Int) (doc : Document)
    (e : StorageError)
    (hdoc : StorageService.GetDocument w id = .ok doc)
    (hfail : (FileStorage.DeleteDocument w.fsys doc.FilePath).1 = some e) :
    (StorageService.DeleteDocument w id).1 = some (.storage e) ∧
    (StorageService.DeleteDocument w id).2.db = w.db ∧
    (StorageService.DeleteDocument w id).2.fsys = w.fsys ∧
    StorageService.GetDocument (StorageService.DeleteDocument w id).2 id = .ok doc := by
  unfold StorageService.GetDocument at hdoc
  have hrm : FileStorage.DeleteDocument w.fsys doc.FilePath = (some e, w.fsys) := by
    unfold FileStorage.DeleteDocument osRemove at hfail ⊢
    cases hf : w.fsys doc.FilePath with
    | none =>
      simp only [hf, Option.some.injEq] at hfail ⊢
      rw [hfail]
    | some b => simp [hf] at hfail
  have hres : StorageService.DeleteDocument w id =
      (some (.storage e), { fsys := w.fsys, db := w.db }) := by
    simp only [StorageService.DeleteDocument, hdoc, hrm]
  rw [hres]
  exact ⟨rfl, rfl, rfl, hdoc⟩

/-- C11 witness: the row of document 1 points to a file that is not on
disk. -/
theorem C11_blob_failure_keeps_row_witness :
    (StorageService.DeleteDocument danglingWorld 1).1 = some (.storage .notExist) ∧
    (StorageService.DeleteDocument danglingWorld 1).2.db = danglingWorld.db ∧
    (StorageService.DeleteDocument danglingWorld 1).2.fsys = danglingWorld.fsys ∧
    StorageService.GetDocument (StorageService.DeleteDocument danglingWorld 1).2 1
      = .ok (uploadedRow lengthDigest) :=
  C11_blob_failure_keeps_row danglingWorld 1 (uploadedRow lengthDigest) .notExist rfl rfl

/-! ### Search results -/

theorem searchResultAt_not_err (results : QueryResults) (i : Nat) (e : VectorError) :
    searchResultAt results i ≠ .err e := by
  unfold searchResultAt
  split
  · intro h; cases h
  · split
    · intro h; cases h
    · intro h; cases h

theorem searchLoop_not_err (results : QueryResults) (e : VectorError) :
    ∀ n, searchLoop results n ≠ .err e := by
  intro n
  induction n with
  | zero => simp [searchLoop]
  | succ n ih =>
    intro h
    simp only [searchLoop] at h
    cases hl : searchLoop results n with
    | err e' =>
      rw [hl] at h
      simp only [Outcome.err.injEq] at h
      exact ih (h ▸ hl)
    | panic => rw [hl] at h; cases h
    | ok acc =>
      rw [hl] at h
      cases hr : searchResultAt results n with
      | ok r => rw [hr] at h; cases h
      | panic => rw [hr] at h; cases h
      | err e' =>
        rw [hr] at h
        exact searchResultAt_not_err results n e' hr

/-- With a first document row, `SearchSimilar` is the loop over that row
(an empty row gives the empty list either way). -/
theorem SearchSimilar_eq_loop {E : Type} (coll : Collection E) (queryEmbedding : E)
    (limit : Int) (results : QueryResults) (docRow : List String)
    (hq : coll.query queryEmbedding (toInt32 limit) = .ok results)
    (hdocs : results.Documents.head? = some docRow) :
    VectorStore.SearchSimilar coll queryEmbedding limit = searchLoop results docRow.length := by
  obtain ⟨hdl, hdg⟩ := head?_some_length _ _ hdocs
  simp only [VectorStore.SearchSimilar, hq, hdg]
  by_cases h0 : docRow.length = 0
  · simp [h0, searchLoop]
  · have : ¬ (results.Documents.length = 0 ∨ docRow.length = 0) := by omega
    simp only [this, if_false]

/-- C13: when the backend query succeeds with no document rows or with an
empty first row, `SearchSimilar` returns the empty list and a nil error;
and whenever `SearchSimilar` returns an error, the backend query failed
and the error wraps the backend's. -/
theorem C13_empty_result_not_error {E : Type} (coll : Collection E) (queryEmbedding : E)
    (limit : Int) :
    (∀ results, coll.query queryEmbedding (toInt32 limit) = .ok results →
      (results.Documents = [] ∨ results.Documents.head? = some []) →
      VectorStore.SearchSimilar coll queryEmbedding limit = .ok []) ∧
    (∀ e, VectorStore.SearchSimilar coll queryEmbedding limit = .err e →
      ∃ cause, coll.query queryEmbedding (toInt32 limit) = .error cause ∧
        e = .queryFailed cause) := by
  constructor
  · intro results hq hempty
    rcases hempty with h | h
    · simp [VectorStore.SearchSimilar, hq, h]
    · rw [SearchSimilar_eq_loop coll queryEmbedding limit results [] hq h]
      rfl
  · intro e he
    cases hq : coll.query queryEmbedding (toInt32 limit) with
    | error cause =>
      refine ⟨cause, rfl, ?_⟩
      simp only [VectorStore.SearchSimilar, hq, Outcome.err.injEq] at he
      exact he.symm
    | ok results =>
      exfalso
      simp only [VectorStore.SearchSimilar, hq] at he
      split_ifs at he
      exact searchLoop_not_err results e _ he

/-- C13 witness: an empty answer gives the empty list; a refused
connection is the error that comes back. -/
theorem C13_empty_result_not_error_witness :
    VectorStore.SearchSimilar okCollection [1 / 5] 5 = .ok [] ∧
    ∃ cause, downCollection.query [1 / 5] (toInt32 5) = .error cause ∧
      VectorError.queryFailed "connection refused" = .queryFailed cause :=
  ⟨(C13_empty_result_not_error okCollection [1 / 5] 5).1 ⟨[], [], [], []⟩ rfl (Or.inl rfl),
   (C13_empty_result_not_error downCollection [1 / 5] 5).2
     (.queryFailed "connection refused") rfl⟩

/-- Entry `i` of the loop's result is the record assembled from row entry
`i` of the answer. -/
theorem searchLoop_fields (results : QueryResults) (idRow : List String)
    (hids : results.Ids.head? = some idRow) (n : Nat) (hn : n ≤ idRow.length) :
    ∃ out, searchLoop results n = .ok out ∧ out.length = n ∧
      ∀ i, i < n → ∃ id, idRow[i]? = some id ∧
        out[i]? = some (searchResultFields results i id) := by
  obtain ⟨out, hout, hlen, hall⟩ := searchLoop_ok results idRow hids n hn
  refine ⟨out, hout, hlen, ?_⟩
  intro i hi
  obtain ⟨r, hr, hat⟩ := hall i hi
  have hil : i < idRow.length := by omega
  rw [searchResultAt_ok results idRow i hids hil] at hat
  injection hat with hat
  exact ⟨idRow.get ⟨i, hil⟩, by simp [List.getElem?_eq_getElem hil], by rw [hr, hat]⟩

/-- C12: the backend answers successfully with a first row of documents,
ids for each of them, and one distance per document, the distances in
non-decreasing order. Then `SearchRelevantChunks` returns one result per
document in the backend's order (contents and ids as in the rows), with
`Score` equal to `1 - distance` entry by entry; the scores are therefore
in non-increasing order, and no score exceeds 1 when no distance is
negative. Arithmetic is exact (rationals). -/
theorem C12_score_order {E : Type} (coll : Collection E) (queryEmbedding : E) (limit : Int)
    (results : QueryResults) (docRow idRow : List String) (distRow : List Rat)
    (hq : coll.query queryEmbedding (toInt32 limit) = .ok results)
    (hdocs : results.Documents.head? = some docRow)
    (hids : results.Ids.head? = some idRow)
    (hdist : results.Distances.head? = some distRow)
    (hidlen : docRow.length ≤ idRow.length)
    (hdlen : distRow.length = docRow.length)
    (hsorted : distRow.Pairwise (fun a b => a ≤ b)) :
    ∃ out, VectorService.SearchRelevantChunks coll queryEmbedding limit = .ok out ∧
      out.map (fun r => r.Content) = docRow ∧
      out.map (fun r => r.ID) = idRow.take docRow.length ∧
      out.map (fun r => r.Score) = distRow.map (fun d => 1 - d) ∧
      (out.map (fun r => r.Score)).Pairwise (fun a b => a ≥ b) ∧
      ((∀ d ∈ distRow, 0 ≤ d) → ∀ r ∈ out, r.Score ≤ 1) := by
  obtain ⟨-, hdg⟩ := head?_some_length _ _ hdocs
  obtain ⟨hdl, hdistg⟩ := head?_some_length _ _ hdist
  obtain ⟨out, hout, hlen, hall⟩ := searchLoop_fields results idRow hids docRow.length hidlen
  have hscore : out.map (fun r => r.Score) = distRow.map (fun d => 1 - d) := by
    apply List.ext_getElem?
    intro i
    by_cases hi : i < docRow.length
    · obtain ⟨id, -, hr⟩ := hall i hi
      have hid : i < distRow.length := by omega
      simp only [List.getElem?_map, hr, Option.map_some', List.getElem?_eq_getElem hid,
        searchResultFields, hdistg, hdl, hid, and_self, if_true, List.getD_eq_getElem?_getD,
        Option.getD_some]
    · rw [List.getElem?_eq_none (by simp; omega), List.getElem?_eq_none (by simp; omega)]
  have hcontent : out.map (fun r => r.Content) = docRow := by
    apply List.ext_getElem?
    intro i
    by_cases hi : i < docRow.length
    · obtain ⟨id, -, hr⟩ := hall i hi
      simp only [List.getElem?_map, hr, Option.map_some', List.getElem?_eq_getElem hi,
        searchResultFields, hdg, List.getD_eq_getElem?_getD, Option.getD_some]
    · rw [List.getElem?_eq_none (by simp; omega), List.getElem?_eq_none (by omega)]
  have hidents : out.map (fun r => r.ID) = idRow.take docRow.length := by
    apply List.ext_getElem?
    intro i
    by_cases hi : i < docRow.length
    · obtain ⟨id, hid, hr⟩ := hall i hi
      simp only [List.getElem?_map, hr, Option.map_some', List.getElem?_take_of_lt hi, hid,
        searchResultFields]
    · rw [List.getElem?_eq_none (by simp; omega),
        List.getElem?_eq_none (by simp; omega)]
  refine ⟨out, ?_, hcontent, hidents, hscore, ?_, ?_⟩
  · unfold VectorService.SearchRelevantChunks
    rw [SearchSimilar_eq_loop coll queryEmbedding limit results docRow hq hdocs, hout]
  · rw [hscore]
    exact List.Pairwise.map _ (fun a b hab => sub_le_sub_left hab 1) hsorted
  · intro hnn r hr
    have hmem : r.Score ∈ out.map (fun r => r.Score) := List.mem_map.mpr ⟨r, hr, rfl⟩
    rw [hscore] at hmem
    obtain ⟨d, hd, hde⟩ := List.mem_map.mp hmem
    rw [← hde]
    have := hnn d hd
    linarith

/-- C12 witness: two hits at distances `1/4` and `3/2` give the scores
`3/4` and `-1/2`, in that order. -/
theorem C12_score_order_witness :
    ∃ out, VectorService.SearchRelevantChunks twoHitCollection [1 / 5] 5 = .ok out ∧
      out.map (fun r => r.Content) = ["near", "far"] ∧
      out.map (fun r => r.ID) = ["doc_1_chunk_0", "doc_1_chunk_1"].take 2 ∧
      out.map (fun r => r.Score) = [1 / 4, 3 / 2].map (fun d => 1 - d) ∧
      (out.map (fun r => r.Score)).Pairwise (fun a b => a ≥ b) ∧
      ((∀ d ∈ [(1 / 4 : Rat), 3 / 2], 0 ≤ d) → ∀ r ∈ out, r.Score ≤ 1) :=
  C12_score_order twoHitCollection [1 / 5] 5 twoHitResults ["near", "far"]
    ["doc_1_chunk_0", "doc_1_chunk_1"] [1 / 4, 3 / 2] rfl rfl rfl rfl (by decide) (by decide)
    (by
      refine List.Pairwise.cons ?_ (List.pairwise_singleton _ _)
      intro b hb
      rw [List.mem_singleton] at hb
      rw [hb]
      norm_num)

end RagAgent
